import Mathlib

/-!
Verification development for the weekly-planner task store
(`src/App.tsx` of demo-drag-drop-kanban).

The component's state and its operations are shallowly embedded below.
React's `useState` fields become fields of `PlannerState`; each handler
becomes a pure function `PlannerState → ... → PlannerState` computing the
state after all queued `setX` updates have been applied (the source applies
whole-value replacement per handler, so this is exact).  Machine numbers are
embedded as `Nat` (task ids, which the code only ever creates as
`max + 1` over naturals) and `Int` (points, which `parseInt` may make
negative).  The `weekdays` array and the key order of the `tasks` record
coincide in the source, so a single `Day` enumeration serves for both.
-/

namespace Kanban

/-- The seven bucket names (the `weekdays` array of the source). -/
inductive Day : Type
  | lundi | mardi | mercredi | jeudi | vendredi | samedi | dimanche
  deriving DecidableEq, Repr, Fintype

/-- `weekdays`, in source order; this is also the key order of the `tasks`
record, over which `Object.keys` / `Object.values` iterate. -/
def weekdays : List Day :=
  [Day.lundi, Day.mardi, Day.mercredi, Day.jeudi, Day.vendredi, Day.samedi, Day.dimanche]

/-- `interface Task` of the source. -/
structure Task : Type where
  id : Nat
  title : String
  description : String
  points : Int
  deriving DecidableEq, Repr

/-- `type ClipboardMode = "copy" | "cut"`. -/
inductive ClipboardMode : Type
  | copy | cut
  deriving DecidableEq, Repr

/-- `type DraggedTaskState` without the `null` case (that case is the
`Option.none` of the state field). -/
inductive DraggedTask : Type
  | singleTask (t : Task)
  | multiTasks (ts : List Task)
  deriving DecidableEq, Repr

/-- `interface TaskFormData`. -/
structure TaskFormData : Type where
  title : String
  description : String
  points : Int
  deriving DecidableEq, Repr

/-- All `useState` fields of the `WeeklyPlanner` component. -/
structure PlannerState : Type where
  tasks : Day → List Task
  folder : List Task
  draggedTask : Option DraggedTask
  selectedTasks : List Task
  clipboard : List Task
  clipboardMode : ClipboardMode
  isModalOpen : Bool
  currentTask : Option Task
  formData : TaskFormData

/-- The seeded `tasks` state. -/
def initialTasks : Day → List Task := fun d =>
  match d with
  | Day.lundi =>
      [⟨1, "Réunion d\x27équipe", "9h - Point hebdomadaire", 2⟩,
       ⟨2, "Analyse des besoins", "Recueillir les besoins client", 5⟩]
  | Day.mardi =>
      [⟨3, "Conception UI", "Créer les maquettes", 8⟩,
       ⟨4, "Revue de code", "Revue des PR en attente", 3⟩]
  | Day.mercredi =>
      [⟨5, "Développement API", "Endpoints backend", 13⟩]
  | Day.jeudi =>
      [⟨6, "Tests fonctionnels", "Tests d\x27acceptation", 5⟩,
       ⟨7, "Documentation", "Mise à jour de la doc technique", 3⟩]
  | Day.vendredi =>
      [⟨8, "Déploiement", "Mise en production v1.2", 8⟩]
  | Day.samedi => []
  | Day.dimanche => []

/-- The component's initial state (all `useState` initialisers). -/
def initialState : PlannerState where
  tasks := initialTasks
  folder := []
  draggedTask := none
  selectedTasks := []
  clipboard := []
  clipboardMode := ClipboardMode.copy
  isModalOpen := false
  currentTask := none
  formData := { title := "", description := "", points := 0 }

/-- The id projection of a task list. -/
def ids (l : List Task) : List Nat := l.map Task.id

/-- `l.some(t => t.id === tid)` of the source. -/
def hasId (l : List Task) (tid : Nat) : Bool :=
  l.any (fun t => t.id == tid)

/-- `l.filter(t => t.id !== tid)` of the source. -/
def eraseId (l : List Task) (tid : Nat) : List Task :=
  l.filter (fun t => t.id != tid)

/-- Replacing the value of one key of the `tasks` record
(`newTasks[day] = ...` after `{ ...currentTasks }`). -/
def setDay (tasks : Day → List Task) (d : Day) (l : List Task) : Day → List Task :=
  fun x => if x = d then l else tasks x

/-- The scan `Object.keys(tasks).find(day => tasks[day].some(t => t.id === tid))`
used by `cutSelectedTasks`, `saveChanges` and `handleDayDrop`. -/
def findSourceDay (tasks : Day → List Task) (tid : Nat) : Option Day :=
  weekdays.find? (fun day => hasId (tasks day) tid)

/-- One iteration of the removal loop of `cutSelectedTasks`: locate the
source day of an id and filter the id out of that day. -/
def removeFromSourceDay (tasks : Day → List Task) (tid : Nat) : Day → List Task :=
  match findSourceDay tasks tid with
  | some sourceDay => setDay tasks sourceDay (eraseId (tasks sourceDay) tid)
  | none => tasks

/-- `Object.values(tasks).flat().map(t => t.id)` of `pasteTasksToDay`. -/
def allBucketIds (tasks : Day → List Task) : List Nat :=
  ((weekdays.map tasks).flatten).map Task.id

/-- `allTaskIds.length > 0 ? Math.max(...allTaskIds) + 1 : 1` (ids are
naturals, so `Math.max` is the fold of `Nat.max`). -/
def nextIdOf (allTaskIds : List Nat) : Nat :=
  if allTaskIds.length > 0 then allTaskIds.foldl Nat.max 0 + 1 else 1

/-- `clipboard.map(task => ({ ...task, id: nextId++ }))`: consecutive fresh
ids starting at `n`. -/
def assignIds (n : Nat) : List Task → List Task
  | [] => []
  | t :: ts => { t with id := n } :: assignIds (n + 1) ts

/-- `{ ...t, ...updatedTaskData }` of `saveChanges` (id is preserved since
`updatedTaskData` carries no id). -/
def applyForm (fd : TaskFormData) (t : Task) : Task :=
  { t with title := fd.title, description := fd.description, points := fd.points }

/-- `newTasks[day][taskIndex] = { ... }` where `taskIndex` is the first
index whose id matches: replace the first matching entry only. -/
def replaceFirst (l : List Task) (tid : Nat) (upd : Task → Task) : List Task :=
  match l with
  | [] => []
  | t :: ts => if t.id == tid then upd t :: ts else t :: replaceFirst ts tid upd

/-- `"multiTasks" in draggedTask ? draggedTask.multiTasks : [draggedTask.singleTask]`. -/
def payloadTasks : DraggedTask → List Task
  | DraggedTask.singleTask t => [t]
  | DraggedTask.multiTasks ts => ts

/-- The ids of the pending drag payload (empty when no drag is pending). -/
def payloadIds (o : Option DraggedTask) : List Nat :=
  match o with
  | none => []
  | some p => ids (payloadTasks p)

/-! ## The operations -/

/-- `selectTask` of the source. -/
def selectTask (s : PlannerState) (task : Task) (isCtrlPressed : Bool) : PlannerState :=
  if isCtrlPressed then
    if hasId s.selectedTasks task.id then
      { s with selectedTasks := eraseId s.selectedTasks task.id }
    else
      { s with selectedTasks := s.selectedTasks ++ [task] }
  else
    match s.selectedTasks with
    | [t] =>
        if t.id == task.id then { s with selectedTasks := [] }
        else { s with selectedTasks := [task] }
    | _ => { s with selectedTasks := [task] }

/-- `copySelectedTasks`.  The transient `setClipboard([])` of the source is
immediately overwritten by `setClipboard([...selectedTasks])` in the same
event, so the resulting state sets the clipboard to the selection. -/
def copySelectedTasks (s : PlannerState) : PlannerState :=
  if s.selectedTasks.length > 0 then
    { s with clipboard := s.selectedTasks, clipboardMode := ClipboardMode.copy }
  else s

/-- `cutSelectedTasks`. -/
def cutSelectedTasks (s : PlannerState) : PlannerState :=
  if s.selectedTasks.length > 0 then
    { s with
      clipboard := s.selectedTasks
      clipboardMode := ClipboardMode.cut
      tasks := s.selectedTasks.foldl (fun acc t => removeFromSourceDay acc t.id) s.tasks
      selectedTasks := [] }
  else s

/-- `pasteTasksToDay`. -/
def pasteTasksToDay (s : PlannerState) (day : Day) : PlannerState :=
  if s.clipboard.length = 0 then s
  else if s.clipboardMode = ClipboardMode.cut then
    { s with
      tasks := setDay s.tasks day (s.tasks day ++ s.clipboard)
      clipboard := []
      clipboardMode := ClipboardMode.copy }
  else
    { s with
      tasks := setDay s.tasks day
        (s.tasks day ++ assignIds (nextIdOf (allBucketIds s.tasks)) s.clipboard) }

/-- `addSelectedTasksToFolder`. -/
def addSelectedTasksToFolder (s : PlannerState) : PlannerState :=
  if s.selectedTasks.length > 0 then
    let newTasksForFolder := s.selectedTasks.filter (fun t => ! hasId s.folder t.id)
    { s with
      folder := if newTasksForFolder.length > 0 then s.folder ++ newTasksForFolder else s.folder
      selectedTasks := [] }
  else s

/-- `removeFromFolder`. -/
def removeFromFolder (s : PlannerState) (taskId : Nat) : PlannerState :=
  { s with folder := eraseId s.folder taskId }

/-- `openEditModal`. -/
def openEditModal (s : PlannerState) (task : Task) : PlannerState :=
  { s with
    currentTask := some task
    formData := { title := task.title, description := task.description, points := task.points }
    isModalOpen := true }

/-- `closeModal`. -/
def closeModal (s : PlannerState) : PlannerState :=
  { s with isModalOpen := false, currentTask := none }

/-- The cumulative effect of `handleFormChange` events: each event rewrites
one field of the form buffer (`points` through `parseInt(value, 10) || 0`,
which yields an arbitrary integer), so any form value is reachable. -/
def setFormData (s : PlannerState) (fd : TaskFormData) : PlannerState :=
  { s with formData := fd }

/-- `saveChanges` (including the trailing `closeModal()`). -/
def saveChanges (s : PlannerState) : PlannerState :=
  match s.currentTask with
  | none => s
  | some currentTask =>
    let tasks2 :=
      match findSourceDay s.tasks currentTask.id with
      | some day =>
          setDay s.tasks day (replaceFirst (s.tasks day) currentTask.id (applyForm s.formData))
      | none => s.tasks
    { s with
      tasks := tasks2
      selectedTasks := s.selectedTasks.map
        (fun t => if t.id == currentTask.id then applyForm s.formData t else t)
      folder := s.folder.map
        (fun t => if t.id == currentTask.id then applyForm s.formData t else t)
      isModalOpen := false
      currentTask := none }

/-- `handleDragStart` (the `dataTransfer` writes have no bearing on state). -/
def handleDragStart (s : PlannerState) (task : Task) : PlannerState :=
  let isTaskSelected := hasId s.selectedTasks task.id
  if isTaskSelected && s.selectedTasks.length > 1 then
    { s with draggedTask := some (DraggedTask.multiTasks s.selectedTasks) }
  else
    let s2 :=
      if !isTaskSelected || s.selectedTasks.length > 1 then
        { s with selectedTasks := [task] }
      else s
    { s2 with draggedTask := some (DraggedTask.singleTask task) }

/-- The body of the `tasksToMove.forEach` loop of `handleDayDrop`: find the
source day; if it exists and differs from the target, filter the id out of
the source and append the payload value to the target unless the target
already holds the id. -/
def dayDropStep (targetDayName : Day) (acc : Day → List Task) (taskToMove : Task) :
    Day → List Task :=
  match findSourceDay acc taskToMove.id with
  | some sourceDay =>
      if sourceDay ≠ targetDayName then
        let acc1 := setDay acc sourceDay (eraseId (acc sourceDay) taskToMove.id)
        if hasId (acc1 targetDayName) taskToMove.id then acc1
        else setDay acc1 targetDayName (acc1 targetDayName ++ [taskToMove])
      else acc
  | none => acc

/-- `handleDayDrop`.  The source's `changed ? newTasks : currentTasks`
returns value-identical states in either branch, so the fold below is the
resulting `tasks` value. -/
def handleDayDrop (s : PlannerState) (targetDayName : Day) : PlannerState :=
  match s.draggedTask with
  | none => s
  | some payload =>
    { s with
      tasks := (payloadTasks payload).foldl (dayDropStep targetDayName) s.tasks
      draggedTask := none }

/-- `handleFolderDrop`. -/
def handleFolderDrop (s : PlannerState) : PlannerState :=
  match s.draggedTask with
  | none => s
  | some payload =>
    let newTasksForFolder := (payloadTasks payload).filter (fun t => ! hasId s.folder t.id)
    { s with
      folder := if newTasksForFolder.length > 0 then s.folder ++ newTasksForFolder else s.folder
      draggedTask := none }

/-! ## Derived data used by the statements -/

/-- The non-identity content of a task. -/
def taskContent (t : Task) : String × String × Int :=
  (t.title, t.description, t.points)

/-- The contents of a task list, position by position. -/
def contentsOf (l : List Task) : List (String × String × Int) :=
  l.map taskContent

/-- Seed task 1 (Lundi). -/
def task1 : Task := ⟨1, "Réunion d\x27équipe", "9h - Point hebdomadaire", 2⟩

/-- Seed task 7 (Jeudi). -/
def task7 : Task := ⟨7, "Documentation", "Mise à jour de la doc technique", 3⟩

/-- Seed task 8 (Vendredi). -/
def task8 : Task := ⟨8, "Déploiement", "Mise en production v1.2", 8⟩

/-- Concrete run: select task 8, add it to the folder, select it again, cut
it, select task 7, copy.  The folder still holds id 8 while the buckets top
out at id 7, so the next copy-mode paste allocates id 8 again. -/
def idReuseState : PlannerState :=
  copySelectedTasks (selectTask (cutSelectedTasks (selectTask
    (addSelectedTasksToFolder (selectTask initialState task8 false)) task8 false)) task7 false)

/-- Concrete run: select task 8, cut it, select task 7, copy.  The copy
overwrites the clipboard, so task 8 is gone from buckets, clipboard and
folder without ever being pasted. -/
def lostTaskState : PlannerState :=
  copySelectedTasks (selectTask (cutSelectedTasks (selectTask initialState task8 false)) task7 false)

/-- The initial state with seed task 1 selected (used to instantiate
selection-dependent theorems). -/
def selWitnessState : PlannerState :=
  { initialState with selectedTasks := [task1] }

/-- The initial state with seed task 1 pending as a single drag payload. -/
def dragWitnessState : PlannerState :=
  { initialState with draggedTask := some (DraggedTask.singleTask task1) }

/-- The initial state with seed task 1 selected, in the folder, and open in
the edit modal. -/
def editWitnessState : PlannerState :=
  { initialState with
    selectedTasks := [task1]
    folder := [task1]
    currentTask := some task1 }

/-! ## Reachability

The presentation layer only ever invokes `selectTask`, `handleDragStart`
and `openEditModal` with a task currently rendered in some bucket, and only
invokes `pasteTasksToDay` / `handleDayDrop` with one of the seven bucket
names (enforced here by the `Day` type). -/

/-- One user-event transition of the task store. -/
inductive Step : PlannerState → PlannerState → Prop
  | select (s : PlannerState) (t : Task) (ctrl : Bool) (h : ∃ d : Day, t ∈ s.tasks d) :
      Step s (selectTask s t ctrl)
  | copy (s : PlannerState) : Step s (copySelectedTasks s)
  | cut (s : PlannerState) : Step s (cutSelectedTasks s)
  | paste (s : PlannerState) (d : Day) : Step s (pasteTasksToDay s d)
  | addToFolder (s : PlannerState) : Step s (addSelectedTasksToFolder s)
  | removeFolder (s : PlannerState) (tid : Nat) : Step s (removeFromFolder s tid)
  | dragStart (s : PlannerState) (t : Task) (h : ∃ d : Day, t ∈ s.tasks d) :
      Step s (handleDragStart s t)
  | dayDrop (s : PlannerState) (d : Day) : Step s (handleDayDrop s d)
  | folderDrop (s : PlannerState) : Step s (handleFolderDrop s)
  | openEdit (s : PlannerState) (t : Task) (h : ∃ d : Day, t ∈ s.tasks d) :
      Step s (openEditModal s t)
  | closeEdit (s : PlannerState) : Step s (closeModal s)
  | formChange (s : PlannerState) (fd : TaskFormData) : Step s (setFormData s fd)
  | save (s : PlannerState) : Step s (saveChanges s)

/-- States reachable from the seeded initial state. -/
def Reachable (s : PlannerState) : Prop :=
  Relation.ReflTransGen Step initialState s

/-! ## The invariant -/

/-- No id appears in two distinct buckets. -/
def BucketsDisjoint (tasks : Day → List Task) : Prop :=
  ∀ d1 d2 : Day, d1 ≠ d2 → ∀ tid ∈ ids (tasks d1), tid ∉ ids (tasks d2)

/-- No id appears twice within one bucket. -/
def BucketsNodup (tasks : Day → List Task) : Prop :=
  ∀ d : Day, (ids (tasks d)).Nodup

/-- An id is present in some bucket. -/
def InBuckets (tasks : Day → List Task) (tid : Nat) : Prop :=
  ∃ d : Day, tid ∈ ids (tasks d)

/-- The inductive invariant of the task store. -/
def Inv (s : PlannerState) : Prop :=
  BucketsDisjoint s.tasks ∧ BucketsNodup s.tasks
  ∧ (ids s.folder).Nodup
  ∧ (ids s.selectedTasks).Nodup
  ∧ (∀ t ∈ s.selectedTasks, InBuckets s.tasks t.id)
  ∧ (ids s.clipboard).Nodup
  ∧ (s.clipboardMode = ClipboardMode.copy → ∀ t ∈ s.clipboard, InBuckets s.tasks t.id)
  ∧ (s.clipboardMode = ClipboardMode.cut → ∀ t ∈ s.clipboard, ¬ InBuckets s.tasks t.id)
  ∧ (payloadIds s.draggedTask).Nodup

/-! ## Basic lemmas -/

theorem mem_weekdays (d : Day) : d ∈ weekdays := by
  cases d <;> simp [weekdays]

theorem mem_ids_iff {l : List Task} {tid : Nat} :
    tid ∈ ids l ↔ ∃ t ∈ l, t.id = tid := by
  simp [ids, List.mem_map]

theorem ids_append (a b : List Task) : ids (a ++ b) = ids a ++ ids b :=
  List.map_append Task.id a b

theorem hasId_iff {l : List Task} {tid : Nat} :
    hasId l tid = true ↔ tid ∈ ids l := by
  simp [hasId, List.any_eq_true, ids, List.mem_map, beq_iff_eq]

theorem hasId_eq_false_iff {l : List Task} {tid : Nat} :
    hasId l tid = false ↔ tid ∉ ids l := by
  rw [← hasId_iff]
  cases h : hasId l tid <;> simp [h]

theorem mem_ids_eraseId {l : List Task} {tid tid2 : Nat} :
    tid2 ∈ ids (eraseId l tid) ↔ tid2 ∈ ids l ∧ tid2 ≠ tid := by
  simp only [eraseId, ids, List.mem_map, List.mem_filter, bne_iff_ne]
  constructor
  · rintro ⟨t, ⟨ht, hne⟩, rfl⟩
    exact ⟨⟨t, ht, rfl⟩, hne⟩
  · rintro ⟨⟨t, ht, rfl⟩, hne⟩
    exact ⟨t, ⟨ht, hne⟩, rfl⟩

theorem ids_eraseId_sublist (l : List Task) (tid : Nat) :
    (ids (eraseId l tid)).Sublist (ids l) :=
  (List.filter_sublist l).map Task.id

theorem nodup_ids_eraseId {l : List Task} (h : (ids l).Nodup) (tid : Nat) :
    (ids (eraseId l tid)).Nodup :=
  List.Nodup.sublist (ids_eraseId_sublist l tid) h

theorem setDay_same (tasks : Day → List Task) (d : Day) (l : List Task) :
    setDay tasks d l d = l := by
  simp [setDay]

theorem setDay_other {x d : Day} (hne : x ≠ d) (tasks : Day → List Task) (l : List Task) :
    setDay tasks d l x = tasks x := by
  simp [setDay, hne]

theorem findSourceDay_mem {tasks : Day → List Task} {tid : Nat} {d : Day}
    (h : findSourceDay tasks tid = some d) : tid ∈ ids (tasks d) := by
  unfold findSourceDay at h
  have h2 := List.find?_some h
  exact hasId_iff.mp h2

theorem findSourceDay_none {tasks : Day → List Task} {tid : Nat}
    (h : findSourceDay tasks tid = none) (d : Day) : tid ∉ ids (tasks d) := by
  intro hmem
  exact List.find?_eq_none.mp h d (mem_weekdays d) (hasId_iff.mpr hmem)

theorem findSourceDay_eq_some {tasks : Day → List Task} {tid : Nat} {d : Day}
    (hdisj : BucketsDisjoint tasks) (h : tid ∈ ids (tasks d)) :
    findSourceDay tasks tid = some d := by
  cases hfind : findSourceDay tasks tid with
  | none => exact absurd h (findSourceDay_none hfind d)
  | some d0 =>
      by_cases he : d0 = d
      · rw [he]
      · exact absurd h (hdisj d0 d he tid (findSourceDay_mem hfind))

theorem bucketsDisjoint_mono {f g : Day → List Task}
    (hsub : ∀ d, ∀ tid, tid ∈ ids (g d) → tid ∈ ids (f d)) (hdisj : BucketsDisjoint f) :
    BucketsDisjoint g := by
  intro d1 d2 hne tid h1 h2
  exact hdisj d1 d2 hne tid (hsub d1 tid h1) (hsub d2 tid h2)

/-! ## Lemmas about the cut removal loop -/

theorem rfsd_eq_of_some {tasks : Day → List Task} {tid : Nat} {d0 : Day}
    (h : findSourceDay tasks tid = some d0) :
    removeFromSourceDay tasks tid = setDay tasks d0 (eraseId (tasks d0) tid) := by
  unfold removeFromSourceDay
  rw [h]

theorem rfsd_eq_of_none {tasks : Day → List Task} {tid : Nat}
    (h : findSourceDay tasks tid = none) :
    removeFromSourceDay tasks tid = tasks := by
  unfold removeFromSourceDay
  rw [h]

theorem rfsd_subset {tasks : Day → List Task} {tid tid2 : Nat} {d : Day}
    (h : tid2 ∈ ids (removeFromSourceDay tasks tid d)) : tid2 ∈ ids (tasks d) := by
  cases hfind : findSourceDay tasks tid with
  | none => rw [rfsd_eq_of_none hfind] at h; exact h
  | some d0 =>
      rw [rfsd_eq_of_some hfind] at h
      by_cases he : d = d0
      · subst he
        rw [setDay_same] at h
        exact (mem_ids_eraseId.mp h).1
      · rw [setDay_other he] at h
        exact h

theorem rfsd_mem_of_ne {tasks : Day → List Task} {tid tid2 : Nat} (hne : tid2 ≠ tid) (d : Day) :
    tid2 ∈ ids (removeFromSourceDay tasks tid d) ↔ tid2 ∈ ids (tasks d) := by
  cases hfind : findSourceDay tasks tid with
  | none => rw [rfsd_eq_of_none hfind]
  | some d0 =>
      rw [rfsd_eq_of_some hfind]
      by_cases he : d = d0
      · subst he
        rw [setDay_same, mem_ids_eraseId]
        exact ⟨fun h => h.1, fun h => ⟨h, hne⟩⟩
      · rw [setDay_other he]

theorem rfsd_gone {tasks : Day → List Task} (hdisj : BucketsDisjoint tasks) (tid : Nat)
    (d : Day) : tid ∉ ids (removeFromSourceDay tasks tid d) := by
  cases hfind : findSourceDay tasks tid with
  | none => rw [rfsd_eq_of_none hfind]; exact findSourceDay_none hfind d
  | some d0 =>
      rw [rfsd_eq_of_some hfind]
      by_cases he : d = d0
      · subst he
        rw [setDay_same]
        intro h
        exact (mem_ids_eraseId.mp h).2 rfl
      · rw [setDay_other he]
        exact hdisj d0 d (fun h => he h.symm) tid (findSourceDay_mem hfind)

theorem rfsd_disjoint {tasks : Day → List Task} (hdisj : BucketsDisjoint tasks) (tid : Nat) :
    BucketsDisjoint (removeFromSourceDay tasks tid) :=
  bucketsDisjoint_mono (fun _ _ h => rfsd_subset h) hdisj

theorem rfsd_nodup {tasks : Day → List Task} (hnd : BucketsNodup tasks) (tid : Nat) :
    BucketsNodup (removeFromSourceDay tasks tid) := by
  intro d
  cases hfind : findSourceDay tasks tid with
  | none => rw [rfsd_eq_of_none hfind]; exact hnd d
  | some d0 =>
      rw [rfsd_eq_of_some hfind]
      by_cases he : d = d0
      · subst he
        rw [setDay_same]
        exact nodup_ids_eraseId (hnd d) tid
      · rw [setDay_other he]
        exact hnd d

theorem cutFold_subset (ts : List Task) (f : Day → List Task) (d : Day) (tid2 : Nat)
    (h : tid2 ∈ ids ((ts.foldl (fun acc t => removeFromSourceDay acc t.id) f) d)) :
    tid2 ∈ ids (f d) := by
  induction ts generalizing f with
  | nil => exact h
  | cons t ts ih =>
      simp only [List.foldl_cons] at h
      exact rfsd_subset (ih (removeFromSourceDay f t.id) h)

theorem cutFold_disjoint (ts : List Task) {f : Day → List Task} (hdisj : BucketsDisjoint f) :
    BucketsDisjoint (ts.foldl (fun acc t => removeFromSourceDay acc t.id) f) := by
  induction ts generalizing f with
  | nil => exact hdisj
  | cons t ts ih =>
      simp only [List.foldl_cons]
      exact ih (rfsd_disjoint hdisj t.id)

theorem cutFold_nodup (ts : List Task) {f : Day → List Task} (hnd : BucketsNodup f) :
    BucketsNodup (ts.foldl (fun acc t => removeFromSourceDay acc t.id) f) := by
  induction ts generalizing f with
  | nil => exact hnd
  | cons t ts ih =>
      simp only [List.foldl_cons]
      exact ih (rfsd_nodup hnd t.id)

theorem cutFold_gone {ts : List Task} {f : Day → List Task} (hdisj : BucketsDisjoint f)
    {t : Task} (ht : t ∈ ts) (d : Day) :
    t.id ∉ ids ((ts.foldl (fun acc t => removeFromSourceDay acc t.id) f) d) := by
  induction ts generalizing f with
  | nil => cases ht
  | cons t0 ts ih =>
      simp only [List.foldl_cons]
      rcases List.mem_cons.mp ht with h1 | h2
      · subst h1
        intro hmem
        exact rfsd_gone hdisj t.id d (cutFold_subset ts _ d t.id hmem)
      · exact ih (rfsd_disjoint hdisj t0.id) h2

theorem cutFold_mem_of_notin {ts : List Task} {f : Day → List Task} {tid2 : Nat}
    (hne : tid2 ∉ ids ts) (d : Day) :
    tid2 ∈ ids ((ts.foldl (fun acc t => removeFromSourceDay acc t.id) f) d)
      ↔ tid2 ∈ ids (f d) := by
  induction ts generalizing f with
  | nil => exact Iff.rfl
  | cons t0 ts ih =>
      simp only [List.foldl_cons]
      have hh : tid2 ≠ t0.id ∧ tid2 ∉ ids ts := by
        simp only [ids, List.map_cons, List.mem_cons, not_or] at hne
        exact hne
      rw [ih hh.2, rfsd_mem_of_ne hh.1]

/-! ## Lemmas about id allocation -/

theorem le_foldl_max (l : List Nat) (a : Nat) : a ≤ l.foldl Nat.max a := by
  induction l generalizing a with
  | nil => exact Nat.le_refl a
  | cons x l ih => exact le_trans (Nat.le_max_left a x) (ih (Nat.max a x))

theorem mem_le_foldl_max (l : List Nat) (a x : Nat) (h : x ∈ l) : x ≤ l.foldl Nat.max a := by
  induction l generalizing a with
  | nil => cases h
  | cons y l ih =>
      rcases List.mem_cons.mp h with h1 | h2
      · subst h1
        exact le_trans (Nat.le_max_right a x) (le_foldl_max l _)
      · exact ih _ h2

theorem lt_nextIdOf {l : List Nat} {x : Nat} (h : x ∈ l) : x < nextIdOf l := by
  unfold nextIdOf
  rw [if_pos (List.length_pos.mpr (List.ne_nil_of_mem h))]
  exact Nat.lt_succ_of_le (mem_le_foldl_max l 0 x h)

theorem mem_allBucketIds {tasks : Day → List Task} {d : Day} {tid : Nat}
    (h : tid ∈ ids (tasks d)) : tid ∈ allBucketIds tasks := by
  unfold allBucketIds
  rcases mem_ids_iff.mp h with ⟨t, ht, rfl⟩
  exact List.mem_map.mpr
    ⟨t, List.mem_flatten.mpr ⟨tasks d, List.mem_map.mpr ⟨d, mem_weekdays d, rfl⟩, ht⟩, rfl⟩

theorem bucket_id_lt_nextId {tasks : Day → List Task} {d : Day} {tid : Nat}
    (h : tid ∈ ids (tasks d)) : tid < nextIdOf (allBucketIds tasks) :=
  lt_nextIdOf (mem_allBucketIds h)

theorem mem_ids_assignIds {l : List Task} {n tid : Nat} :
    tid ∈ ids (assignIds n l) ↔ n ≤ tid ∧ tid < n + l.length := by
  induction l generalizing n with
  | nil => simp [assignIds, ids]
  | cons t l ih =>
      simp only [assignIds, ids, List.map_cons, List.mem_cons, List.length_cons]
      constructor
      · rintro (rfl | h)
        · exact ⟨Nat.le_refl _, by omega⟩
        · have h2 := (ih.mp h : n + 1 ≤ tid ∧ tid < n + 1 + l.length)
          exact ⟨by omega, by omega⟩
      · intro h
        by_cases he : tid = n
        · exact Or.inl he
        · exact Or.inr (ih.mpr (by omega))

theorem length_assignIds (n : Nat) (l : List Task) : (assignIds n l).length = l.length := by
  induction l generalizing n with
  | nil => rfl
  | cons t l ih => simp [assignIds, ih]

theorem nodup_ids_assignIds (n : Nat) (l : List Task) : (ids (assignIds n l)).Nodup := by
  induction l generalizing n with
  | nil => simp [assignIds, ids]
  | cons t l ih =>
      simp only [assignIds, ids, List.map_cons, List.nodup_cons]
      refine ⟨fun hmem => ?_, ih (n + 1)⟩
      have h2 := (mem_ids_assignIds.mp hmem : n + 1 ≤ n ∧ _)
      omega

theorem contentsOf_assignIds (n : Nat) (l : List Task) :
    contentsOf (assignIds n l) = contentsOf l := by
  induction l generalizing n with
  | nil => rfl
  | cons t l ih =>
      have h2 : List.map taskContent (assignIds (n + 1) l) = List.map taskContent l := ih (n + 1)
      simp only [assignIds, contentsOf, List.map_cons]
      rw [h2]
      rfl

/-! ## Lemmas about de-duplicated folder appends -/

theorem ids_filter_nodup {P : List Task} (h : (ids P).Nodup) (F : List Task) :
    (ids (P.filter (fun t => ! hasId F t.id))).Nodup :=
  List.Nodup.sublist ((List.filter_sublist P).map Task.id) h

theorem mem_ids_filter_folder {P F : List Task} {tid : Nat} :
    tid ∈ ids (P.filter (fun t => ! hasId F t.id)) ↔ tid ∈ ids P ∧ tid ∉ ids F := by
  simp only [ids, List.mem_map, List.mem_filter, Bool.not_eq_true']
  constructor
  · rintro ⟨t, ⟨ht, hf⟩, rfl⟩
    exact ⟨⟨t, ht, rfl⟩, fun hc => (hasId_eq_false_iff.mp hf) (mem_ids_iff.mpr hc)⟩
  · rintro ⟨⟨t, ht, rfl⟩, hf⟩
    exact ⟨t, ⟨ht, hasId_eq_false_iff.mpr (fun hc => hf (mem_ids_iff.mp hc))⟩, rfl⟩

theorem nodup_folder_append {P F : List Task} (hF : (ids F).Nodup) (hP : (ids P).Nodup) :
    (ids (F ++ P.filter (fun t => ! hasId F t.id))).Nodup := by
  rw [ids_append, List.nodup_append]
  refine ⟨hF, ids_filter_nodup hP F, fun tid h1 h2 => ?_⟩
  exact (mem_ids_filter_folder.mp h2).2 h1

/-! ## Lemmas about the day-drop loop -/

theorem dds_eq_of_none {B : Day} {acc : Day → List Task} {t : Task}
    (h : findSourceDay acc t.id = none) : dayDropStep B acc t = acc := by
  unfold dayDropStep
  rw [h]

theorem dds_eq_of_target {B : Day} {acc : Day → List Task} {t : Task}
    (h : findSourceDay acc t.id = some B) : dayDropStep B acc t = acc := by
  unfold dayDropStep
  rw [h]
  simp

theorem dds_eq_of_present {B d0 : Day} {acc : Day → List Task} {t : Task}
    (h : findSourceDay acc t.id = some d0) (hne : d0 ≠ B)
    (hpres : hasId (acc B) t.id = true) :
    dayDropStep B acc t = setDay acc d0 (eraseId (acc d0) t.id) := by
  unfold dayDropStep
  rw [h]
  dsimp only
  rw [if_pos hne, setDay_other (Ne.symm hne), hpres]
  simp

theorem dds_eq_of_move {B d0 : Day} {acc : Day → List Task} {t : Task}
    (h : findSourceDay acc t.id = some d0) (hne : d0 ≠ B)
    (habs : hasId (acc B) t.id = false) :
    dayDropStep B acc t
      = setDay (setDay acc d0 (eraseId (acc d0) t.id)) B (acc B ++ [t]) := by
  unfold dayDropStep
  rw [h]
  dsimp only
  rw [if_pos hne, setDay_other (Ne.symm hne), habs]
  simp

theorem dds_cases (B : Day) (acc : Day → List Task) (t : Task) :
    (findSourceDay acc t.id = none ∧ dayDropStep B acc t = acc)
    ∨ (findSourceDay acc t.id = some B ∧ dayDropStep B acc t = acc)
    ∨ (∃ d0, findSourceDay acc t.id = some d0 ∧ d0 ≠ B ∧ hasId (acc B) t.id = true ∧
        dayDropStep B acc t = setDay acc d0 (eraseId (acc d0) t.id))
    ∨ (∃ d0, findSourceDay acc t.id = some d0 ∧ d0 ≠ B ∧ hasId (acc B) t.id = false ∧
        dayDropStep B acc t
          = setDay (setDay acc d0 (eraseId (acc d0) t.id)) B (acc B ++ [t])) := by
  cases hfind : findSourceDay acc t.id with
  | none => exact Or.inl ⟨rfl, dds_eq_of_none hfind⟩
  | some d0 =>
      by_cases he : d0 = B
      · subst he
        exact Or.inr (Or.inl ⟨rfl, dds_eq_of_target hfind⟩)
      · cases hpres : hasId (acc B) t.id with
        | true =>
            exact Or.inr (Or.inr (Or.inl
              ⟨d0, rfl, he, rfl, dds_eq_of_present hfind he hpres⟩))
        | false =>
            exact Or.inr (Or.inr (Or.inr
              ⟨d0, rfl, he, rfl, dds_eq_of_move hfind he hpres⟩))

theorem dds_target_extra (B : Day) (acc : Day → List Task) (t : Task) :
    ∃ e, dayDropStep B acc t B = acc B ++ e
      ∧ (e = [] ∨ (e = [t] ∧ t.id ∉ ids (acc B))) := by
  rcases dds_cases B acc t with ⟨_, heq⟩ | ⟨_, heq⟩ | ⟨d0, _, hne, _, heq⟩
    | ⟨d0, _, hne, habs, heq⟩
  · exact ⟨[], by simp [heq], Or.inl rfl⟩
  · exact ⟨[], by simp [heq], Or.inl rfl⟩
  · refine ⟨[], ?_, Or.inl rfl⟩
    rw [heq, setDay_other (Ne.symm hne)]
    simp
  · refine ⟨[t], ?_, Or.inr ⟨rfl, hasId_eq_false_iff.mp habs⟩⟩
    rw [heq, setDay_same]

theorem dds_other_subset {B d : Day} (hd : d ≠ B) (acc : Day → List Task) (t : Task)
    {tid2 : Nat} (h : tid2 ∈ ids (dayDropStep B acc t d)) : tid2 ∈ ids (acc d) := by
  rcases dds_cases B acc t with ⟨_, heq⟩ | ⟨_, heq⟩ | ⟨d0, _, hne, _, heq⟩
    | ⟨d0, _, hne, habs, heq⟩
  · rw [heq] at h; exact h
  · rw [heq] at h; exact h
  · rw [heq] at h
    by_cases he : d = d0
    · subst he
      rw [setDay_same] at h
      exact (mem_ids_eraseId.mp h).1
    · rw [setDay_other he] at h
      exact h
  · rw [heq, setDay_other hd] at h
    by_cases he : d = d0
    · subst he
      rw [setDay_same] at h
      exact (mem_ids_eraseId.mp h).1
    · rw [setDay_other he] at h
      exact h

theorem dds_gone {B d : Day} {acc : Day → List Task} {t : Task}
    (hdisj : BucketsDisjoint acc) (hd : d ≠ B) : t.id ∉ ids (dayDropStep B acc t d) := by
  rcases dds_cases B acc t with ⟨hfind, heq⟩ | ⟨hfind, heq⟩ | ⟨d0, hfind, hne, _, heq⟩
    | ⟨d0, hfind, hne, habs, heq⟩
  · rw [heq]; exact findSourceDay_none hfind d
  · rw [heq]
    exact hdisj B d (Ne.symm hd) t.id (findSourceDay_mem hfind)
  · rw [heq]
    by_cases he : d = d0
    · subst he
      rw [setDay_same]
      intro h
      exact (mem_ids_eraseId.mp h).2 rfl
    · rw [setDay_other he]
      exact hdisj d0 d (fun h2 => he h2.symm) t.id (findSourceDay_mem hfind)
  · rw [heq, setDay_other hd]
    by_cases he : d = d0
    · subst he
      rw [setDay_same]
      intro h
      exact (mem_ids_eraseId.mp h).2 rfl
    · rw [setDay_other he]
      exact hdisj d0 d (fun h2 => he h2.symm) t.id (findSourceDay_mem hfind)

theorem dds_disjoint {B : Day} {acc : Day → List Task} {t : Task}
    (hdisj : BucketsDisjoint acc) : BucketsDisjoint (dayDropStep B acc t) := by
  intro d1 d2 hne12 tid h1 h2
  by_cases h1B : d1 = B
  · subst h1B
    obtain ⟨e, he, hcase⟩ := dds_target_extra d1 acc t
    rw [he, ids_append] at h1
    rcases List.mem_append.mp h1 with hmem | hmem
    · exact hdisj d1 d2 hne12 tid hmem (dds_other_subset hne12.symm acc t h2)
    · rcases hcase with rfl | ⟨rfl, _⟩
      · cases hmem
      · have : tid = t.id := by simpa [ids] using hmem
        subst this
        exact dds_gone hdisj hne12.symm h2
  · by_cases h2B : d2 = B
    · subst h2B
      obtain ⟨e, he, hcase⟩ := dds_target_extra d2 acc t
      rw [he, ids_append] at h2
      rcases List.mem_append.mp h2 with hmem | hmem
      · exact hdisj d2 d1 hne12.symm tid hmem (dds_other_subset h1B acc t h1)
      · rcases hcase with rfl | ⟨rfl, _⟩
        · cases hmem
        · have : tid = t.id := by simpa [ids] using hmem
          subst this
          exact dds_gone hdisj h1B h1
    · exact hdisj d1 d2 hne12 tid (dds_other_subset h1B acc t h1)
        (dds_other_subset h2B acc t h2)

theorem dds_nodup {B : Day} {acc : Day → List Task} {t : Task}
    (hnd : BucketsNodup acc) : BucketsNodup (dayDropStep B acc t) := by
  intro d
  by_cases hd : d = B
  · subst hd
    obtain ⟨e, he, hcase⟩ := dds_target_extra d acc t
    rw [he, ids_append]
    rcases hcase with rfl | ⟨rfl, habs⟩
    · simpa [ids] using hnd d
    · rw [List.nodup_append]
      refine ⟨hnd d, List.nodup_singleton t.id, fun tid hmem hmem2 => ?_⟩
      have : tid = t.id := by simpa [ids] using hmem2
      subst this
      exact habs hmem
  · rcases dds_cases B acc t with ⟨_, heq⟩ | ⟨_, heq⟩ | ⟨d0, _, hne, _, heq⟩
      | ⟨d0, _, hne, habs, heq⟩
    · rw [heq]; exact hnd d
    · rw [heq]; exact hnd d
    · rw [heq]
      by_cases he : d = d0
      · subst he
        rw [setDay_same]
        exact nodup_ids_eraseId (hnd d) t.id
      · rw [setDay_other he]
        exact hnd d
    · rw [heq, setDay_other hd]
      by_cases he : d = d0
      · subst he
        rw [setDay_same]
        exact nodup_ids_eraseId (hnd d) t.id
      · rw [setDay_other he]
        exact hnd d

theorem dds_inBuckets_iff {B : Day} {acc : Day → List Task} {t : Task} {tid2 : Nat} :
    InBuckets (dayDropStep B acc t) tid2 ↔ InBuckets acc tid2 := by
  rcases dds_cases B acc t with ⟨hfind, heq⟩ | ⟨hfind, heq⟩ | ⟨d0, hfind, hne, hpres, heq⟩
    | ⟨d0, hfind, hne, habs, heq⟩
  · rw [heq]
  · rw [heq]
  · rw [heq]
    constructor
    · rintro ⟨d, hd⟩
      by_cases he : d = d0
      · subst he
        rw [setDay_same] at hd
        exact ⟨d, (mem_ids_eraseId.mp hd).1⟩
      · rw [setDay_other he] at hd
        exact ⟨d, hd⟩
    · rintro ⟨d, hd⟩
      by_cases heid : tid2 = t.id
      · subst heid
        exact ⟨B, by rw [setDay_other (Ne.symm hne)]; exact hasId_iff.mp hpres⟩
      · refine ⟨d, ?_⟩
        by_cases he : d = d0
        · subst he
          rw [setDay_same]
          exact mem_ids_eraseId.mpr ⟨hd, heid⟩
        · rw [setDay_other he]
          exact hd
  · rw [heq]
    constructor
    · rintro ⟨d, hd⟩
      by_cases hdB : d = B
      · subst hdB
        rw [setDay_same, ids_append] at hd
        rcases List.mem_append.mp hd with hmem | hmem
        · exact ⟨d, hmem⟩
        · have : tid2 = t.id := by simpa [ids] using hmem
          subst this
          exact ⟨d0, findSourceDay_mem hfind⟩
      · rw [setDay_other hdB] at hd
        by_cases he : d = d0
        · subst he
          rw [setDay_same] at hd
          exact ⟨d, (mem_ids_eraseId.mp hd).1⟩
        · rw [setDay_other he] at hd
          exact ⟨d, hd⟩
    · rintro ⟨d, hd⟩
      by_cases heid : tid2 = t.id
      · subst heid
        refine ⟨B, ?_⟩
        rw [setDay_same, ids_append]
        exact List.mem_append.mpr (Or.inr (by simp [ids]))
      · by_cases hdB : d = B
        · subst hdB
          refine ⟨d, ?_⟩
          rw [setDay_same, ids_append]
          exact List.mem_append.mpr (Or.inl hd)
        · refine ⟨d, ?_⟩
          rw [setDay_other hdB]
          by_cases he : d = d0
          · subst he
            rw [setDay_same]
            exact mem_ids_eraseId.mpr ⟨hd, heid⟩
          · rw [setDay_other he]
            exact hd

theorem dropFold_target (B : Day) (P : List Task) (f : Day → List Task) :
    ∃ e, (P.foldl (dayDropStep B) f) B = f B ++ e
      ∧ ∀ t2 ∈ e, t2 ∈ P ∧ t2.id ∉ ids (f B) := by
  induction P generalizing f with
  | nil => exact ⟨[], by simp, by simp⟩
  | cons t P ih =>
      simp only [List.foldl_cons]
      obtain ⟨e0, he0, hc0⟩ := dds_target_extra B f t
      obtain ⟨e1, he1, hc1⟩ := ih (dayDropStep B f t)
      refine ⟨e0 ++ e1, by rw [he1, he0, List.append_assoc], fun t2 ht2 => ?_⟩
      rcases List.mem_append.mp ht2 with hm | hm
      · rcases hc0 with rfl | ⟨rfl, hid⟩
        · cases hm
        · have h3 : t2 = t := by simpa using hm
          rw [h3]
          exact ⟨List.mem_cons_self t P, hid⟩
      · obtain ⟨hP, hid⟩ := hc1 t2 hm
        refine ⟨List.mem_cons_of_mem t hP, fun hc => ?_⟩
        rw [he0, ids_append] at hid
        exact hid (List.mem_append.mpr (Or.inl hc))

theorem dropFold_other_subset {B d : Day} (hd : d ≠ B) (P : List Task)
    (f : Day → List Task) {tid2 : Nat}
    (h : tid2 ∈ ids ((P.foldl (dayDropStep B) f) d)) : tid2 ∈ ids (f d) := by
  induction P generalizing f with
  | nil => exact h
  | cons t P ih =>
      simp only [List.foldl_cons] at h
      exact dds_other_subset hd f t (ih (dayDropStep B f t) h)

theorem dropFold_disjoint (B : Day) (P : List Task) {f : Day → List Task}
    (hdisj : BucketsDisjoint f) : BucketsDisjoint (P.foldl (dayDropStep B) f) := by
  induction P generalizing f with
  | nil => exact hdisj
  | cons t P ih =>
      simp only [List.foldl_cons]
      exact ih (dds_disjoint hdisj)

theorem dropFold_nodup (B : Day) (P : List Task) {f : Day → List Task}
    (hnd : BucketsNodup f) : BucketsNodup (P.foldl (dayDropStep B) f) := by
  induction P generalizing f with
  | nil => exact hnd
  | cons t P ih =>
      simp only [List.foldl_cons]
      exact ih (dds_nodup hnd)

theorem dropFold_gone {B d : Day} {P : List Task} {f : Day → List Task} {t : Task}
    (hdisj : BucketsDisjoint f) (ht : t ∈ P) (hd : d ≠ B) :
    t.id ∉ ids ((P.foldl (dayDropStep B) f) d) := by
  induction P generalizing f with
  | nil => cases ht
  | cons t0 P ih =>
      simp only [List.foldl_cons]
      rcases List.mem_cons.mp ht with h1 | h2
      · subst h1
        intro hmem
        exact dds_gone hdisj hd (dropFold_other_subset hd P (dayDropStep B f t) hmem)
      · exact ih (dds_disjoint hdisj) h2

theorem dropFold_inBuckets_iff (B : Day) (P : List Task) (f : Day → List Task) (tid2 : Nat) :
    InBuckets (P.foldl (dayDropStep B) f) tid2 ↔ InBuckets f tid2 := by
  induction P generalizing f with
  | nil => exact Iff.rfl
  | cons t P ih =>
      simp only [List.foldl_cons]
      rw [ih (dayDropStep B f t), dds_inBuckets_iff]

theorem dropFold_self_noop {B : Day} {P : List Task} {f : Day → List Task}
    (hdisj : BucketsDisjoint f) (hall : ∀ t ∈ P, t.id ∈ ids (f B)) :
    P.foldl (dayDropStep B) f = f := by
  induction P with
  | nil => rfl
  | cons t P ih =>
      simp only [List.foldl_cons]
      rw [dds_eq_of_target (findSourceDay_eq_some hdisj (hall t (List.mem_cons_self t P)))]
      exact ih fun t2 ht2 => hall t2 (List.mem_cons_of_mem t ht2)

/-! ## Lemmas about edit propagation -/

theorem ids_replaceFirst {upd : Task → Task} (hid : ∀ t, (upd t).id = t.id)
    (l : List Task) (tid : Nat) : ids (replaceFirst l tid upd) = ids l := by
  induction l with
  | nil => rfl
  | cons t ts ih =>
      by_cases he : (t.id == tid) = true
      · simp [replaceFirst, he, ids, hid t]
      · simp only [Bool.not_eq_true] at he
        simp only [replaceFirst, he, Bool.false_eq_true, if_false, ids, List.map_cons] at ih ⊢
        rw [ih]

theorem map_update_noop {upd : Task → Task} {l : List Task} {tid : Nat}
    (h : tid ∉ ids l) : l.map (fun t => if t.id == tid then upd t else t) = l := by
  induction l with
  | nil => rfl
  | cons t ts ih =>
      simp only [ids, List.map_cons, List.mem_cons, not_or] at h
      simp only [List.map_cons]
      rw [if_neg (by simp only [beq_iff_eq]; exact fun hc => h.1 hc.symm),
        ih (by simpa [ids] using h.2)]

theorem replaceFirst_eq_map {upd : Task → Task} {l : List Task} {tid : Nat}
    (hnd : (ids l).Nodup) :
    replaceFirst l tid upd = l.map (fun t => if t.id == tid then upd t else t) := by
  induction l with
  | nil => rfl
  | cons t ts ih =>
      simp only [ids, List.map_cons, List.nodup_cons] at hnd
      by_cases he : (t.id == tid) = true
      · have htid : tid ∉ ids ts := by
          rw [← (beq_iff_eq.mp he)]
          exact hnd.1
        simp only [replaceFirst, List.map_cons, he, if_pos]
        rw [map_update_noop htid]
      · simp only [replaceFirst, List.map_cons, Bool.not_eq_true] at he ⊢
        rw [he, ih hnd.2]
        simp

/-! ## The invariant is preserved by every operation -/

theorem nodup_ids_append_single {l : List Task} {task : Task}
    (hnd : (ids l).Nodup) (hmem : task.id ∉ ids l) : (ids (l ++ [task])).Nodup := by
  rw [ids_append, List.nodup_append]
  refine ⟨hnd, List.nodup_singleton task.id, fun tid h1 h2 => ?_⟩
  have : tid = task.id := by simpa [ids] using h2
  subst this
  exact hmem h1

theorem inBuckets_of_mem {s : PlannerState} {t : Task} (h : ∃ d : Day, t ∈ s.tasks d) :
    InBuckets s.tasks t.id := by
  obtain ⟨d, hd⟩ := h
  exact ⟨d, List.mem_map.mpr ⟨t, hd, rfl⟩⟩

theorem inBuckets_setDay_append {f : Day → List Task} {B : Day} {X : List Task} {tid : Nat}
    (h : InBuckets f tid) : InBuckets (setDay f B (f B ++ X)) tid := by
  obtain ⟨d, hd⟩ := h
  by_cases he : d = B
  · subst he
    exact ⟨d, by rw [setDay_same, ids_append]; exact List.mem_append.mpr (Or.inl hd)⟩
  · exact ⟨d, by rw [setDay_other he]; exact hd⟩

theorem inv_set_selection {s : PlannerState} (hInv : Inv s) (sel2 : List Task)
    (hnd2 : (ids sel2).Nodup) (hin2 : ∀ t2 ∈ sel2, InBuckets s.tasks t2.id) :
    Inv { s with selectedTasks := sel2 } := by
  obtain ⟨hdisj, hnd, hfnd, _, _, hcnd, hccopy, hccut, hdnd⟩ := hInv
  exact ⟨hdisj, hnd, hfnd, hnd2, hin2, hcnd, hccopy, hccut, hdnd⟩

theorem inv_selectTask {s : PlannerState} {t : Task} (hInv : Inv s)
    (h : ∃ d : Day, t ∈ s.tasks d) (ctrl : Bool) : Inv (selectTask s t ctrl) := by
  obtain ⟨hdisj, hnd, hfnd, hsnd, hsin, hcnd, hccopy, hccut, hdnd⟩ := hInv
  cases ctrl with
  | true =>
      cases hh : hasId s.selectedTasks t.id with
      | true =>
          simp only [selectTask, if_pos rfl, hh, if_true]
          exact inv_set_selection
            ⟨hdisj, hnd, hfnd, hsnd, hsin, hcnd, hccopy, hccut, hdnd⟩ _
            (nodup_ids_eraseId hsnd t.id)
            (fun t2 ht2 => hsin t2 (List.mem_of_mem_filter ht2))
      | false =>
          simp only [selectTask, if_pos rfl, hh, Bool.false_eq_true, if_false]
          exact inv_set_selection
            ⟨hdisj, hnd, hfnd, hsnd, hsin, hcnd, hccopy, hccut, hdnd⟩ _
            (nodup_ids_append_single hsnd (hasId_eq_false_iff.mp hh))
            (fun t2 ht2 => by
              rcases List.mem_append.mp ht2 with hm | hm
              · exact hsin t2 hm
              · have h3 : t2 = t := by simpa using hm
                rw [h3]
                exact inBuckets_of_mem h)
  | false =>
      have hbase : Inv { s with selectedTasks := [t] } :=
        inv_set_selection ⟨hdisj, hnd, hfnd, hsnd, hsin, hcnd, hccopy, hccut, hdnd⟩ _
          (List.nodup_singleton t.id)
          (fun t2 ht2 => by
            have h3 : t2 = t := by simpa using ht2
            rw [h3]
            exact inBuckets_of_mem h)
      have hempty : Inv { s with selectedTasks := ([] : List Task) } :=
        inv_set_selection ⟨hdisj, hnd, hfnd, hsnd, hsin, hcnd, hccopy, hccut, hdnd⟩ _
          List.nodup_nil (fun t2 ht2 => absurd ht2 (List.not_mem_nil t2))
      rcases hsel : s.selectedTasks with _ | ⟨a, _ | ⟨b, l⟩⟩
      · simpa [selectTask, hsel] using hbase
      · by_cases he : (a.id == t.id) = true
        · simpa [selectTask, hsel, he] using hempty
        · simp only [Bool.not_eq_true] at he
          simpa [selectTask, hsel, he] using hbase
      · simpa [selectTask, hsel] using hbase

theorem inv_copySelectedTasks {s : PlannerState} (hInv : Inv s) :
    Inv (copySelectedTasks s) := by
  obtain ⟨hdisj, hnd, hfnd, hsnd, hsin, hcnd, hccopy, hccut, hdnd⟩ := hInv
  by_cases hc : s.selectedTasks.length > 0
  · simp only [copySelectedTasks, if_pos hc]
    exact ⟨hdisj, hnd, hfnd, hsnd, hsin, hsnd,
      fun _ t2 ht2 => hsin t2 ht2,
      fun hmode => absurd hmode (by simp), hdnd⟩
  · simp only [copySelectedTasks, if_neg hc]
    exact ⟨hdisj, hnd, hfnd, hsnd, hsin, hcnd, hccopy, hccut, hdnd⟩

theorem inv_removeFromFolder {s : PlannerState} (hInv : Inv s) (tid : Nat) :
    Inv (removeFromFolder s tid) := by
  obtain ⟨hdisj, hnd, hfnd, hsnd, hsin, hcnd, hccopy, hccut, hdnd⟩ := hInv
  exact ⟨hdisj, hnd, nodup_ids_eraseId hfnd tid, hsnd, hsin, hcnd, hccopy, hccut, hdnd⟩

theorem inv_openEditModal {s : PlannerState} (hInv : Inv s) (t : Task) :
    Inv (openEditModal s t) :=
  hInv

theorem inv_closeModal {s : PlannerState} (hInv : Inv s) : Inv (closeModal s) :=
  hInv

theorem inv_setFormData {s : PlannerState} (hInv : Inv s) (fd : TaskFormData) :
    Inv (setFormData s fd) :=
  hInv

theorem disjoint_setDay_append {f : Day → List Task} {B : Day} {X : List Task}
    (hdisj : BucketsDisjoint f) (hX : ∀ tid ∈ ids X, ∀ d, tid ∉ ids (f d)) :
    BucketsDisjoint (setDay f B (f B ++ X)) := by
  intro d1 d2 hne tid h1 h2
  by_cases h1B : d1 = B
  · subst h1B
    rw [setDay_same, ids_append] at h1
    rw [setDay_other hne.symm] at h2
    rcases List.mem_append.mp h1 with hm | hm
    · exact hdisj d1 d2 hne tid hm h2
    · exact hX tid hm d2 h2
  · rw [setDay_other h1B] at h1
    by_cases h2B : d2 = B
    · subst h2B
      rw [setDay_same, ids_append] at h2
      rcases List.mem_append.mp h2 with hm | hm
      · exact hdisj d1 d2 hne tid h1 hm
      · exact hX tid hm d1 h1
    · rw [setDay_other h2B] at h2
      exact hdisj d1 d2 hne tid h1 h2

theorem nodup_setDay_append {f : Day → List Task} {B : Day} {X : List Task}
    (hnd : BucketsNodup f) (hXnd : (ids X).Nodup) (hX : ∀ tid ∈ ids X, tid ∉ ids (f B)) :
    BucketsNodup (setDay f B (f B ++ X)) := by
  intro d
  by_cases hd : d = B
  · subst hd
    rw [setDay_same, ids_append, List.nodup_append]
    exact ⟨hnd d, hXnd, fun tid h1 h2 => hX tid h2 h1⟩
  · rw [setDay_other hd]
    exact hnd d

theorem inv_cutSelectedTasks {s : PlannerState} (hInv : Inv s) : Inv (cutSelectedTasks s) := by
  obtain ⟨hdisj, hnd, hfnd, hsnd, hsin, hcnd, hccopy, hccut, hdnd⟩ := hInv
  by_cases hc : s.selectedTasks.length > 0
  · simp only [cutSelectedTasks, if_pos hc]
    refine ⟨cutFold_disjoint _ hdisj, cutFold_nodup _ hnd, hfnd, List.nodup_nil,
      fun t2 ht2 => absurd ht2 (List.not_mem_nil t2), hsnd,
      fun hmode => absurd hmode (by simp), fun _ t2 ht2 => ?_, hdnd⟩
    rintro ⟨d, hd⟩
    exact cutFold_gone hdisj ht2 d hd
  · simp only [cutSelectedTasks, if_neg hc]
    exact ⟨hdisj, hnd, hfnd, hsnd, hsin, hcnd, hccopy, hccut, hdnd⟩

theorem inv_pasteTasksToDay {s : PlannerState} (hInv : Inv s) (day : Day) :
    Inv (pasteTasksToDay s day) := by
  obtain ⟨hdisj, hnd, hfnd, hsnd, hsin, hcnd, hccopy, hccut, hdnd⟩ := hInv
  by_cases hc : s.clipboard.length = 0
  · simp only [pasteTasksToDay, if_pos hc]
    exact ⟨hdisj, hnd, hfnd, hsnd, hsin, hcnd, hccopy, hccut, hdnd⟩
  · by_cases hm : s.clipboardMode = ClipboardMode.cut
    · simp only [pasteTasksToDay, if_neg hc, if_pos hm]
      have hX : ∀ tid ∈ ids s.clipboard, ∀ d, tid ∉ ids (s.tasks d) := by
        intro tid htid d hd
        obtain ⟨t2, ht2, rfl⟩ := mem_ids_iff.mp htid
        exact hccut hm t2 ht2 ⟨d, hd⟩
      exact ⟨disjoint_setDay_append hdisj hX,
        nodup_setDay_append hnd hcnd (fun tid h1 => hX tid h1 day),
        hfnd, hsnd, fun t2 ht2 => inBuckets_setDay_append (hsin t2 ht2),
        List.nodup_nil, fun _ t2 ht2 => absurd ht2 (List.not_mem_nil t2),
        fun _ t2 ht2 => absurd ht2 (List.not_mem_nil t2), hdnd⟩
    · simp only [pasteTasksToDay, if_neg hc, if_neg hm]
      have hmcopy : s.clipboardMode = ClipboardMode.copy := by
        cases h2 : s.clipboardMode
        · rfl
        · exact absurd h2 hm
      have hX : ∀ tid ∈ ids (assignIds (nextIdOf (allBucketIds s.tasks)) s.clipboard),
          ∀ d, tid ∉ ids (s.tasks d) := by
        intro tid htid d hd
        have h1 := (mem_ids_assignIds.mp htid).1
        have h2 := bucket_id_lt_nextId hd
        omega
      exact ⟨disjoint_setDay_append hdisj hX,
        nodup_setDay_append hnd (nodup_ids_assignIds _ _) (fun tid h1 => hX tid h1 day),
        hfnd, hsnd, fun t2 ht2 => inBuckets_setDay_append (hsin t2 ht2),
        hcnd, fun hmode t2 ht2 => inBuckets_setDay_append (hccopy hmode t2 ht2),
        fun hmode => absurd hmode hm, hdnd⟩

theorem inv_addSelectedTasksToFolder {s : PlannerState} (hInv : Inv s) :
    Inv (addSelectedTasksToFolder s) := by
  obtain ⟨hdisj, hnd, hfnd, hsnd, hsin, hcnd, hccopy, hccut, hdnd⟩ := hInv
  by_cases hc : s.selectedTasks.length > 0
  · simp only [addSelectedTasksToFolder, if_pos hc]
    refine ⟨hdisj, hnd, ?_, List.nodup_nil,
      fun t2 ht2 => absurd ht2 (List.not_mem_nil t2), hcnd, hccopy, hccut, hdnd⟩
    split
    · exact nodup_folder_append hfnd hsnd
    · exact hfnd
  · simp only [addSelectedTasksToFolder, if_neg hc]
    exact ⟨hdisj, hnd, hfnd, hsnd, hsin, hcnd, hccopy, hccut, hdnd⟩

theorem inv_handleFolderDrop {s : PlannerState} (hInv : Inv s) :
    Inv (handleFolderDrop s) := by
  obtain ⟨hdisj, hnd, hfnd, hsnd, hsin, hcnd, hccopy, hccut, hdnd⟩ := hInv
  cases hdrag : s.draggedTask with
  | none =>
      simp only [handleFolderDrop, hdrag]
      exact ⟨hdisj, hnd, hfnd, hsnd, hsin, hcnd, hccopy, hccut,
        by rw [hdrag]; simp [payloadIds]⟩
  | some p =>
      rw [hdrag] at hdnd
      simp only [handleFolderDrop, hdrag]
      refine ⟨hdisj, hnd, ?_, hsnd, hsin, hcnd, hccopy, hccut, List.nodup_nil⟩
      split
      · exact nodup_folder_append hfnd hdnd
      · exact hfnd

theorem inv_handleDragStart {s : PlannerState} {t : Task} (hInv : Inv s)
    (h : ∃ d : Day, t ∈ s.tasks d) : Inv (handleDragStart s t) := by
  obtain ⟨hdisj, hnd, hfnd, hsnd, hsin, hcnd, hccopy, hccut, hdnd⟩ := hInv
  by_cases hc : (hasId s.selectedTasks t.id && decide (s.selectedTasks.length > 1)) = true
  · simp only [handleDragStart, hc, if_true]
    exact ⟨hdisj, hnd, hfnd, hsnd, hsin, hcnd, hccopy, hccut, hsnd⟩
  · simp only [handleDragStart, hc, Bool.false_eq_true, if_false]
    by_cases hc2 : (!hasId s.selectedTasks t.id || decide (s.selectedTasks.length > 1)) = true
    · simp only [hc2, if_true]
      exact ⟨hdisj, hnd, hfnd, List.nodup_singleton t.id,
        fun t2 ht2 => by
          have h3 : t2 = t := by simpa using ht2
          rw [h3]
          exact inBuckets_of_mem h,
        hcnd, hccopy, hccut, List.nodup_singleton t.id⟩
    · simp only [hc2, Bool.false_eq_true, if_false]
      exact ⟨hdisj, hnd, hfnd, hsnd, hsin, hcnd, hccopy, hccut,
        List.nodup_singleton t.id⟩

theorem inv_handleDayDrop {s : PlannerState} (hInv : Inv s) (B : Day) :
    Inv (handleDayDrop s B) := by
  obtain ⟨hdisj, hnd, hfnd, hsnd, hsin, hcnd, hccopy, hccut, hdnd⟩ := hInv
  cases hdrag : s.draggedTask with
  | none =>
      simp only [handleDayDrop, hdrag]
      exact ⟨hdisj, hnd, hfnd, hsnd, hsin, hcnd, hccopy, hccut,
        by rw [hdrag]; simp [payloadIds]⟩
  | some p =>
      simp only [handleDayDrop, hdrag]
      refine ⟨dropFold_disjoint B _ hdisj, dropFold_nodup B _ hnd, hfnd, hsnd,
        fun t2 ht2 => (dropFold_inBuckets_iff B _ s.tasks t2.id).mpr (hsin t2 ht2),
        hcnd,
        fun hmode t2 ht2 => (dropFold_inBuckets_iff B _ s.tasks t2.id).mpr
          (hccopy hmode t2 ht2),
        fun hmode t2 ht2 hc =>
          hccut hmode t2 ht2 ((dropFold_inBuckets_iff B _ s.tasks t2.id).mp hc),
        List.nodup_nil⟩

theorem ids_map_cond (fd : TaskFormData) (tid : Nat) (l : List Task) :
    ids (l.map (fun t => if t.id == tid then applyForm fd t else t)) = ids l := by
  induction l with
  | nil => rfl
  | cons t ts ih =>
      simp only [List.map_cons, ids, List.map_cons] at ih ⊢
      rw [ih]
      by_cases he : (t.id == tid) = true
      · rw [if_pos he]
        rfl
      · simp only [Bool.not_eq_true] at he
        rw [he]
        simp

theorem saveChanges_tasks_ids {s : PlannerState} {ct : Task}
    (hcur : s.currentTask = some ct) (d : Day) :
    ids ((saveChanges s).tasks d) = ids (s.tasks d) := by
  simp only [saveChanges, hcur]
  cases hfind : findSourceDay s.tasks ct.id with
  | none => rfl
  | some d0 =>
      by_cases he : d = d0
      · subst he
        dsimp only
        rw [setDay_same]
        exact @ids_replaceFirst (applyForm s.formData) (fun t2 => rfl) (s.tasks d) ct.id
      · dsimp only
        rw [setDay_other he]

theorem inv_saveChanges {s : PlannerState} (hInv : Inv s) : Inv (saveChanges s) := by
  obtain ⟨hdisj, hnd, hfnd, hsnd, hsin, hcnd, hccopy, hccut, hdnd⟩ := hInv
  cases hcur : s.currentTask with
  | none =>
      simp only [saveChanges, hcur]
      exact ⟨hdisj, hnd, hfnd, hsnd, hsin, hcnd, hccopy, hccut, hdnd⟩
  | some ct =>
      have hids : ∀ d, ids ((saveChanges s).tasks d) = ids (s.tasks d) :=
        saveChanges_tasks_ids hcur
      have hib : ∀ tid, InBuckets ((saveChanges s).tasks) tid ↔ InBuckets s.tasks tid := by
        intro tid
        constructor
        · rintro ⟨d, hd⟩
          exact ⟨d, (hids d) ▸ hd⟩
        · rintro ⟨d, hd⟩
          exact ⟨d, (hids d).symm ▸ hd⟩
      have hmain : Inv (saveChanges s) := by
        simp only [saveChanges, hcur] at hids hib ⊢
        refine ⟨fun d1 d2 hne tid h1 h2 =>
            hdisj d1 d2 hne tid ((hids d1) ▸ h1) ((hids d2) ▸ h2),
          fun d => (hids d) ▸ hnd d,
          by rw [ids_map_cond]; exact hfnd,
          by rw [ids_map_cond]; exact hsnd,
          fun t2 ht2 => ?_, hcnd,
          fun hmode t2 ht2 => (hib _).mpr (hccopy hmode t2 ht2),
          fun hmode t2 ht2 hc => hccut hmode t2 ht2 ((hib _).mp hc),
          hdnd⟩
        obtain ⟨t0, ht0, rfl⟩ := List.mem_map.mp ht2
        have hid0 : (if (t0.id == ct.id) = true then applyForm s.formData t0 else t0).id
            = t0.id := by
          by_cases he : (t0.id == ct.id) = true
          · rw [if_pos he]; rfl
          · rw [if_neg he]
        rw [hid0]
        exact (hib t0.id).mpr (hsin t0 ht0)
      exact hmain

theorem inv_step {s s2 : PlannerState} (hstep : Step s s2) (hInv : Inv s) : Inv s2 := by
  cases hstep with
  | select t ctrl h => exact inv_selectTask hInv h ctrl
  | copy => exact inv_copySelectedTasks hInv
  | cut => exact inv_cutSelectedTasks hInv
  | paste d => exact inv_pasteTasksToDay hInv d
  | addToFolder => exact inv_addSelectedTasksToFolder hInv
  | removeFolder tid => exact inv_removeFromFolder hInv tid
  | dragStart t h => exact inv_handleDragStart hInv h
  | dayDrop d => exact inv_handleDayDrop hInv d
  | folderDrop => exact inv_handleFolderDrop hInv
  | openEdit t h => exact inv_openEditModal hInv t
  | closeEdit => exact inv_closeModal hInv
  | formChange fd => exact inv_setFormData hInv fd
  | save => exact inv_saveChanges hInv

theorem inv_initialState : Inv initialState := by
  unfold Inv BucketsDisjoint BucketsNodup InBuckets
  decide

theorem inv_reachable {s : PlannerState} (h : Reachable s) : Inv s := by
  induction h with
  | refl => exact inv_initialState
  | tail _ hstep ih => exact inv_step hstep ih

theorem paste_copy_eq (s : PlannerState) (B : Day) (hlen0 : ¬ s.clipboard.length = 0)
    (hmode : s.clipboardMode = ClipboardMode.copy) :
    pasteTasksToDay s B = { s with tasks := setDay s.tasks B (s.tasks B
      ++ assignIds (nextIdOf (allBucketIds s.tasks)) s.clipboard) } := by
  simp only [pasteTasksToDay]
  rw [if_neg hlen0, hmode]
  simp

theorem paste_copy_len (s : PlannerState) (B : Day) (hlen0 : ¬ s.clipboard.length = 0)
    (hmode : s.clipboardMode = ClipboardMode.copy) :
    ((pasteTasksToDay s B).tasks B).length = (s.tasks B).length + s.clipboard.length := by
  rw [paste_copy_eq s B hlen0 hmode]
  show (setDay s.tasks B (s.tasks B ++ assignIds _ s.clipboard) B).length = _
  rw [setDay_same, List.length_append, length_assignIds]

theorem selectTask_only_selection (s : PlannerState) (task : Task) (b : Bool) :
    (selectTask s task b).tasks = s.tasks
    ∧ (selectTask s task b).folder = s.folder
    ∧ (selectTask s task b).clipboard = s.clipboard
    ∧ (selectTask s task b).clipboardMode = s.clipboardMode
    ∧ (selectTask s task b).draggedTask = s.draggedTask
    ∧ (selectTask s task b).currentTask = s.currentTask
    ∧ (selectTask s task b).formData = s.formData
    ∧ (selectTask s task b).isModalOpen = s.isModalOpen := by
  unfold selectTask
  repeat' split
  all_goals exact ⟨rfl, rfl, rfl, rfl, rfl, rfl, rfl, rfl⟩

theorem copySelectedTasks_tasks (s : PlannerState) :
    (copySelectedTasks s).tasks = s.tasks := by
  unfold copySelectedTasks
  split <;> rfl

theorem addSelectedTasksToFolder_tasks (s : PlannerState) :
    (addSelectedTasksToFolder s).tasks = s.tasks := by
  unfold addSelectedTasksToFolder
  split <;> rfl

theorem handleDragStart_tasks (s : PlannerState) (t : Task) :
    (handleDragStart s t).tasks = s.tasks := by
  unfold handleDragStart
  dsimp only
  split
  · rfl
  · split <;> rfl

theorem handleFolderDrop_tasks (s : PlannerState) :
    (handleFolderDrop s).tasks = s.tasks := by
  unfold handleFolderDrop
  repeat' split
  all_goals rfl

theorem paste_inBuckets_mono {s : PlannerState} {tid : Nat} (d : Day)
    (hin : InBuckets s.tasks tid) : InBuckets (pasteTasksToDay s d).tasks tid := by
  by_cases hc : s.clipboard.length = 0
  · simp only [pasteTasksToDay, if_pos hc]
    exact hin
  · by_cases hm : s.clipboardMode = ClipboardMode.cut
    · simp only [pasteTasksToDay, if_neg hc, if_pos hm]
      exact inBuckets_setDay_append hin
    · simp only [pasteTasksToDay, if_neg hc, if_neg hm]
      exact inBuckets_setDay_append hin

/-! ## The claims -/

/-- Claim C1: for every reachable state of the task store, no task id
appears in more than one bucket simultaneously (indeed no id appears twice
within a single bucket either), and no task id appears more than once
within the folder; and every operation of the store (select, copy, cut,
pasteInto, dropOnBucket, dropOnFolder, addSelectionToFolder, commitEdit,
removeFromFolder, as well as the modal/form events), taken as a `Step` from
a reachable state, preserves this predicate. -/
theorem c1_uniqueness {s : PlannerState} (h : Reachable s) :
    (BucketsDisjoint s.tasks ∧ BucketsNodup s.tasks ∧ (ids s.folder).Nodup)
    ∧ ∀ s2, Step s s2 →
        BucketsDisjoint s2.tasks ∧ BucketsNodup s2.tasks ∧ (ids s2.folder).Nodup := by
  obtain ⟨hdisj, hnd, hfnd, _⟩ := inv_reachable h
  refine ⟨⟨hdisj, hnd, hfnd⟩, fun s2 hstep => ?_⟩
  obtain ⟨hdisj2, hnd2, hfnd2, _⟩ := inv_step hstep (inv_reachable h)
  exact ⟨hdisj2, hnd2, hfnd2⟩

/-- Witness for C1, instantiated at the (trivially reachable) initial
state. -/
theorem c1_uniqueness_witness :
    (BucketsDisjoint initialState.tasks ∧ BucketsNodup initialState.tasks
      ∧ (ids initialState.folder).Nodup)
    ∧ ∀ s2, Step initialState s2 →
        BucketsDisjoint s2.tasks ∧ BucketsNodup s2.tasks ∧ (ids s2.folder).Nodup :=
  c1_uniqueness Relation.ReflTransGen.refl

/-- Claim C2: from any state with a non-empty selection (and buckets whose
ids are not duplicated across buckets, as on every reachable state),
`cut()` followed by `pasteInto(B)` leaves every formerly selected task
present in bucket `B` as the very same value (unchanged id, title,
description, points), with its id absent from every bucket other than `B`
(in particular from its original bucket when that differs from `B`), the
clipboard empty and the clipboard mode reset to copy; a second `pasteInto`
with the now-empty clipboard is a no-op on any bucket. -/
theorem c2_cut_paste_move (s : PlannerState) (B : Day)
    (hsel : s.selectedTasks ≠ []) (hdisj : BucketsDisjoint s.tasks) :
    (∀ t ∈ s.selectedTasks,
        t ∈ (pasteTasksToDay (cutSelectedTasks s) B).tasks B
        ∧ ∀ d, d ≠ B → t.id ∉ ids ((pasteTasksToDay (cutSelectedTasks s) B).tasks d))
    ∧ (pasteTasksToDay (cutSelectedTasks s) B).clipboard = []
    ∧ (pasteTasksToDay (cutSelectedTasks s) B).clipboardMode = ClipboardMode.copy
    ∧ ∀ B2, pasteTasksToDay (pasteTasksToDay (cutSelectedTasks s) B) B2
        = pasteTasksToDay (cutSelectedTasks s) B := by
  have hlen : s.selectedTasks.length > 0 := List.length_pos.mpr hsel
  have hlen0 : ¬ s.selectedTasks.length = 0 := by omega
  have hcut : cutSelectedTasks s = { s with
      clipboard := s.selectedTasks
      clipboardMode := ClipboardMode.cut
      tasks := s.selectedTasks.foldl (fun acc t => removeFromSourceDay acc t.id) s.tasks
      selectedTasks := [] } := by
    simp only [cutSelectedTasks, if_pos hlen]
  have e1 : pasteTasksToDay (cutSelectedTasks s) B = { s with
      tasks := setDay
        (s.selectedTasks.foldl (fun acc t => removeFromSourceDay acc t.id) s.tasks) B
        ((s.selectedTasks.foldl (fun acc t => removeFromSourceDay acc t.id) s.tasks) B
          ++ s.selectedTasks)
      selectedTasks := []
      clipboard := []
      clipboardMode := ClipboardMode.copy } := by
    rw [hcut]
    simp only [pasteTasksToDay]
    rw [if_neg hlen0]
    simp
  refine ⟨fun t ht => ⟨?_, fun d hd => ?_⟩, by rw [e1], by rw [e1], fun B2 => ?_⟩
  · rw [e1]
    show t ∈ setDay _ B _ B
    rw [setDay_same]
    exact List.mem_append_right _ ht
  · rw [e1]
    show t.id ∉ ids (setDay _ B _ d)
    rw [setDay_other hd]
    exact cutFold_gone hdisj ht d
  · rw [e1]
    simp [pasteTasksToDay]

/-- Witness for C2: the initial state with seed task 1 selected, pasting
into Saturday. -/
theorem c2_cut_paste_move_witness :
    (∀ t ∈ ({ initialState with selectedTasks := [task1] } : PlannerState).selectedTasks,
        t ∈ (pasteTasksToDay
              (cutSelectedTasks { initialState with selectedTasks := [task1] })
              Day.samedi).tasks Day.samedi
        ∧ ∀ d, d ≠ Day.samedi →
            t.id ∉ ids ((pasteTasksToDay
              (cutSelectedTasks { initialState with selectedTasks := [task1] })
              Day.samedi).tasks d))
    ∧ (pasteTasksToDay (cutSelectedTasks { initialState with selectedTasks := [task1] })
        Day.samedi).clipboard = []
    ∧ (pasteTasksToDay (cutSelectedTasks { initialState with selectedTasks := [task1] })
        Day.samedi).clipboardMode = ClipboardMode.copy
    ∧ ∀ B2, pasteTasksToDay
        (pasteTasksToDay (cutSelectedTasks { initialState with selectedTasks := [task1] })
          Day.samedi) B2
        = pasteTasksToDay (cutSelectedTasks { initialState with selectedTasks := [task1] })
            Day.samedi :=
  c2_cut_paste_move { initialState with selectedTasks := [task1] } Day.samedi
    (by simp) (by unfold BucketsDisjoint; decide)

/-- Claim C3: from any state with a non-empty selection, `copy()` followed
by two `pasteInto(B)` calls appends to `B` two batches of fresh-id
duplicates of the selection — same title/description/points position by
position, with consecutive ids starting at `n1` resp. `n2`, the two batches
id-disjoint and all their ids absent from every original bucket — while
every bucket other than `B` is unchanged (so the originals remain in their
source buckets, `B` keeping its original prefix); the clipboard still holds
the selection with mode copy, and a third paste appends a further
selection-sized batch. -/
theorem c3_copy_paste_duplicates (s : PlannerState) (B : Day)
    (hsel : s.selectedTasks ≠ []) :
    ∃ n1 n2 : Nat,
      n1 + s.selectedTasks.length ≤ n2
      ∧ (pasteTasksToDay (pasteTasksToDay (copySelectedTasks s) B) B).tasks B
          = s.tasks B ++ (assignIds n1 s.selectedTasks ++ assignIds n2 s.selectedTasks)
      ∧ (∀ d, d ≠ B →
          (pasteTasksToDay (pasteTasksToDay (copySelectedTasks s) B) B).tasks d
            = s.tasks d)
      ∧ contentsOf (assignIds n1 s.selectedTasks) = contentsOf s.selectedTasks
      ∧ contentsOf (assignIds n2 s.selectedTasks) = contentsOf s.selectedTasks
      ∧ (∀ tid, tid ∈ ids (assignIds n1 s.selectedTasks)
          ↔ n1 ≤ tid ∧ tid < n1 + s.selectedTasks.length)
      ∧ (∀ tid, tid ∈ ids (assignIds n2 s.selectedTasks)
          ↔ n2 ≤ tid ∧ tid < n2 + s.selectedTasks.length)
      ∧ (∀ tid ∈ ids (assignIds n1 s.selectedTasks),
          tid ∉ ids (assignIds n2 s.selectedTasks))
      ∧ (∀ tid, (tid ∈ ids (assignIds n1 s.selectedTasks)
            ∨ tid ∈ ids (assignIds n2 s.selectedTasks)) → ∀ d, tid ∉ ids (s.tasks d))
      ∧ (pasteTasksToDay (pasteTasksToDay (copySelectedTasks s) B) B).clipboard
          = s.selectedTasks
      ∧ (pasteTasksToDay (pasteTasksToDay (copySelectedTasks s) B) B).clipboardMode
          = ClipboardMode.copy
      ∧ ((pasteTasksToDay (pasteTasksToDay (pasteTasksToDay (copySelectedTasks s) B) B)
            B).tasks B).length
          = ((pasteTasksToDay (pasteTasksToDay (copySelectedTasks s) B) B).tasks B).length
            + s.selectedTasks.length := by
  have hlen : s.selectedTasks.length > 0 := List.length_pos.mpr hsel
  have hlen0 : ¬ s.selectedTasks.length = 0 := by omega
  have hcopy : copySelectedTasks s
      = { s with clipboard := s.selectedTasks, clipboardMode := ClipboardMode.copy } := by
    simp only [copySelectedTasks, if_pos hlen]
  have e2 : pasteTasksToDay (copySelectedTasks s) B = { s with
      clipboard := s.selectedTasks
      clipboardMode := ClipboardMode.copy
      tasks := setDay s.tasks B (s.tasks B
        ++ assignIds (nextIdOf (allBucketIds s.tasks)) s.selectedTasks) } := by
    rw [hcopy]
    exact paste_copy_eq _ B hlen0 rfl
  have e3 : pasteTasksToDay (pasteTasksToDay (copySelectedTasks s) B) B = { s with
      clipboard := s.selectedTasks
      clipboardMode := ClipboardMode.copy
      tasks := setDay
        (setDay s.tasks B (s.tasks B
          ++ assignIds (nextIdOf (allBucketIds s.tasks)) s.selectedTasks)) B
        ((setDay s.tasks B (s.tasks B
          ++ assignIds (nextIdOf (allBucketIds s.tasks)) s.selectedTasks)) B
          ++ assignIds (nextIdOf (allBucketIds (setDay s.tasks B (s.tasks B
              ++ assignIds (nextIdOf (allBucketIds s.tasks)) s.selectedTasks))))
              s.selectedTasks) } := by
    rw [e2]
    exact paste_copy_eq _ B hlen0 rfl
  refine ⟨nextIdOf (allBucketIds s.tasks),
    nextIdOf (allBucketIds (setDay s.tasks B (s.tasks B
      ++ assignIds (nextIdOf (allBucketIds s.tasks)) s.selectedTasks))),
    ?_, ?_, ?_, contentsOf_assignIds _ _, contentsOf_assignIds _ _,
    fun tid => mem_ids_assignIds, fun tid => mem_ids_assignIds, ?_, ?_,
    by rw [e3], by rw [e3], ?_⟩
  case _ =>
    have hmem1 : nextIdOf (allBucketIds s.tasks) + s.selectedTasks.length - 1
        ∈ ids (assignIds (nextIdOf (allBucketIds s.tasks)) s.selectedTasks) :=
      mem_ids_assignIds.mpr ⟨by omega, by omega⟩
    have hmem2 : nextIdOf (allBucketIds s.tasks) + s.selectedTasks.length - 1
        ∈ ids ((setDay s.tasks B (s.tasks B
          ++ assignIds (nextIdOf (allBucketIds s.tasks)) s.selectedTasks)) B) := by
      rw [setDay_same, ids_append]
      exact List.mem_append.mpr (Or.inr hmem1)
    have h3 := lt_nextIdOf (mem_allBucketIds hmem2)
    omega
  case _ =>
    rw [e3]
    show setDay _ B _ B = _
    rw [setDay_same, setDay_same, List.append_assoc]
  case _ =>
    intro d hd
    rw [e3]
    show setDay _ B _ d = _
    rw [setDay_other hd, setDay_other hd]
  case _ =>
    intro tid h1 h2
    have hb1 := mem_ids_assignIds.mp h1
    have hb2 := mem_ids_assignIds.mp h2
    have hmem1 : nextIdOf (allBucketIds s.tasks) + s.selectedTasks.length - 1
        ∈ ids (assignIds (nextIdOf (allBucketIds s.tasks)) s.selectedTasks) :=
      mem_ids_assignIds.mpr ⟨by omega, by omega⟩
    have hmem2 : nextIdOf (allBucketIds s.tasks) + s.selectedTasks.length - 1
        ∈ ids ((setDay s.tasks B (s.tasks B
          ++ assignIds (nextIdOf (allBucketIds s.tasks)) s.selectedTasks)) B) := by
      rw [setDay_same, ids_append]
      exact List.mem_append.mpr (Or.inr hmem1)
    have h3 := lt_nextIdOf (mem_allBucketIds hmem2)
    omega
  case _ =>
    intro tid h d hmem
    have hlt := bucket_id_lt_nextId hmem
    rcases h with h | h
    · have hb := mem_ids_assignIds.mp h
      omega
    · have hb := mem_ids_assignIds.mp h
      have hmem1 : nextIdOf (allBucketIds s.tasks) + s.selectedTasks.length - 1
          ∈ ids (assignIds (nextIdOf (allBucketIds s.tasks)) s.selectedTasks) :=
        mem_ids_assignIds.mpr ⟨by omega, by omega⟩
      have hmem2 : nextIdOf (allBucketIds s.tasks) + s.selectedTasks.length - 1
          ∈ ids ((setDay s.tasks B (s.tasks B
            ++ assignIds (nextIdOf (allBucketIds s.tasks)) s.selectedTasks)) B) := by
        rw [setDay_same, ids_append]
        exact List.mem_append.mpr (Or.inr hmem1)
      have h3 := lt_nextIdOf (mem_allBucketIds hmem2)
      omega
  case _ =>
    have hc1 : ¬ (pasteTasksToDay (pasteTasksToDay (copySelectedTasks s) B)
        B).clipboard.length = 0 := by
      rw [e3]
      exact hlen0
    have hc2 : (pasteTasksToDay (pasteTasksToDay (copySelectedTasks s) B)
        B).clipboardMode = ClipboardMode.copy := by
      rw [e3]
    have h4 := paste_copy_len _ B hc1 hc2
    rw [h4]
    have hc3 : (pasteTasksToDay (pasteTasksToDay (copySelectedTasks s) B)
        B).clipboard = s.selectedTasks := by
      rw [e3]
    rw [hc3]

/-- Witness for C3: the initial state with seed task 1 selected, pasting
twice into Sunday. -/
theorem c3_copy_paste_duplicates_witness :
    ∃ n1 n2 : Nat,
      n1 + ({ initialState with selectedTasks := [task1] } :
          PlannerState).selectedTasks.length ≤ n2
      ∧ (pasteTasksToDay (pasteTasksToDay
            (copySelectedTasks { initialState with selectedTasks := [task1] })
            Day.dimanche) Day.dimanche).tasks Day.dimanche
          = ({ initialState with selectedTasks := [task1] } :
              PlannerState).tasks Day.dimanche
            ++ (assignIds n1 [task1] ++ assignIds n2 [task1])
      ∧ (∀ d, d ≠ Day.dimanche →
          (pasteTasksToDay (pasteTasksToDay
            (copySelectedTasks { initialState with selectedTasks := [task1] })
            Day.dimanche) Day.dimanche).tasks d
          = ({ initialState with selectedTasks := [task1] } : PlannerState).tasks d)
      ∧ contentsOf (assignIds n1 [task1]) = contentsOf [task1]
      ∧ contentsOf (assignIds n2 [task1]) = contentsOf [task1]
      ∧ (∀ tid, tid ∈ ids (assignIds n1 [task1]) ↔ n1 ≤ tid ∧ tid < n1 + [task1].length)
      ∧ (∀ tid, tid ∈ ids (assignIds n2 [task1]) ↔ n2 ≤ tid ∧ tid < n2 + [task1].length)
      ∧ (∀ tid ∈ ids (assignIds n1 [task1]), tid ∉ ids (assignIds n2 [task1]))
      ∧ (∀ tid, (tid ∈ ids (assignIds n1 [task1]) ∨ tid ∈ ids (assignIds n2 [task1]))
          → ∀ d, tid ∉ ids (({ initialState with selectedTasks := [task1] } :
              PlannerState).tasks d))
      ∧ (pasteTasksToDay (pasteTasksToDay
            (copySelectedTasks { initialState with selectedTasks := [task1] })
            Day.dimanche) Day.dimanche).clipboard = [task1]
      ∧ (pasteTasksToDay (pasteTasksToDay
            (copySelectedTasks { initialState with selectedTasks := [task1] })
            Day.dimanche) Day.dimanche).clipboardMode = ClipboardMode.copy
      ∧ ((pasteTasksToDay (pasteTasksToDay (pasteTasksToDay
            (copySelectedTasks { initialState with selectedTasks := [task1] })
            Day.dimanche) Day.dimanche) Day.dimanche).tasks Day.dimanche).length
          = ((pasteTasksToDay (pasteTasksToDay
              (copySelectedTasks { initialState with selectedTasks := [task1] })
              Day.dimanche) Day.dimanche).tasks Day.dimanche).length
            + [task1].length :=
  c3_copy_paste_duplicates { initialState with selectedTasks := [task1] } Day.dimanche
    (by simp)

/-- Counterexample to claim C4 as stated: `idReuseState` is reachable
(select task 8, add to folder, select it again, cut, select task 7, copy),
mode is copy and the clipboard non-empty, so a paste executes a copy-mode
allocation; the allocated id is exactly 8 (buckets top out at 7, since task
8 was cut out of them), and id 8 is still present in the folder at
allocation time — so the allocated id is NOT strictly greater than every id
in the folder. -/
theorem c4_id_reuse_counterexample :
    Reachable idReuseState
    ∧ idReuseState.clipboardMode = ClipboardMode.copy
    ∧ idReuseState.clipboard.length = 1
    ∧ ids (assignIds (nextIdOf (allBucketIds idReuseState.tasks)) idReuseState.clipboard)
        = [8]
    ∧ ids ((pasteTasksToDay idReuseState Day.samedi).tasks Day.samedi) = [8]
    ∧ 8 ∈ ids idReuseState.folder
    ∧ ¬ (∀ allocated ∈ ids (assignIds (nextIdOf (allBucketIds idReuseState.tasks))
          idReuseState.clipboard), ∀ tid ∈ ids idReuseState.folder, tid < allocated) := by
  refine ⟨?_, by decide, by decide, by decide, by decide, by decide, by decide⟩
  exact Relation.ReflTransGen.tail
    (Relation.ReflTransGen.tail
      (Relation.ReflTransGen.tail
        (Relation.ReflTransGen.tail
          (Relation.ReflTransGen.tail
            (Relation.ReflTransGen.tail Relation.ReflTransGen.refl
              (Step.select initialState task8 false ⟨Day.vendredi, by decide⟩))
            (Step.addToFolder _))
          (Step.select _ task8 false ⟨Day.vendredi, by decide⟩))
        (Step.cut _))
      (Step.select _ task7 false ⟨Day.jeudi, by decide⟩))
    (Step.copy _)

/-- Claim C4 (amended): on every reachable state in which a copy-mode paste
executes (mode copy, clipboard non-empty), each allocated id is strictly
greater than every id currently present in any bucket, in the selection and
in the clipboard at allocation time; the amendment drops "in the folder",
which the code does not guarantee — the next-id derivation scans buckets
only, and a folder snapshot can outlive its cut-out bucket task (see the
counterexample). -/
theorem c4_amended_id_monotonic {s : PlannerState} (h : Reachable s)
    (hmode : s.clipboardMode = ClipboardMode.copy) (hclip : s.clipboard ≠ [])
    (B : Day) :
    (pasteTasksToDay s B).tasks B
      = s.tasks B ++ assignIds (nextIdOf (allBucketIds s.tasks)) s.clipboard
    ∧ ∀ allocated ∈ ids (assignIds (nextIdOf (allBucketIds s.tasks)) s.clipboard),
        (∀ d : Day, ∀ tid ∈ ids (s.tasks d), tid < allocated)
        ∧ (∀ tid ∈ ids s.selectedTasks, tid < allocated)
        ∧ (∀ tid ∈ ids s.clipboard, tid < allocated) := by
  have hlen0 : ¬ s.clipboard.length = 0 :=
    fun hc => hclip (List.length_eq_zero.mp hc)
  constructor
  · rw [paste_copy_eq s B hlen0 hmode]
    show setDay _ B _ B = _
    rw [setDay_same]
  · intro allocated hmem
    have hge := (mem_ids_assignIds.mp hmem).1
    obtain ⟨hdisj, hnd, hfnd, hsnd, hsin, hcnd, hccopy, hccut, hdnd⟩ := inv_reachable h
    refine ⟨fun d tid htid => ?_, fun tid htid => ?_, fun tid htid => ?_⟩
    · have h2 := bucket_id_lt_nextId htid
      omega
    · obtain ⟨t0, ht0, rfl⟩ := mem_ids_iff.mp htid
      obtain ⟨d, hd⟩ := hsin t0 ht0
      have h2 := bucket_id_lt_nextId hd
      omega
    · obtain ⟨t0, ht0, rfl⟩ := mem_ids_iff.mp htid
      obtain ⟨d, hd⟩ := hccopy hmode t0 ht0
      have h2 := bucket_id_lt_nextId hd
      omega

/-- Witness for the amended C4: the reachable state obtained by selecting
seed task 1 and copying it, pasting into Saturday. -/
theorem c4_amended_id_monotonic_witness :
    ((pasteTasksToDay (copySelectedTasks (selectTask initialState task1 false))
        Day.samedi).tasks Day.samedi
      = (copySelectedTasks (selectTask initialState task1 false)).tasks Day.samedi
        ++ assignIds (nextIdOf (allBucketIds
            (copySelectedTasks (selectTask initialState task1 false)).tasks))
          (copySelectedTasks (selectTask initialState task1 false)).clipboard)
    ∧ ∀ allocated ∈ ids (assignIds (nextIdOf (allBucketIds
          (copySelectedTasks (selectTask initialState task1 false)).tasks))
        (copySelectedTasks (selectTask initialState task1 false)).clipboard),
        (∀ d : Day, ∀ tid ∈ ids ((copySelectedTasks
            (selectTask initialState task1 false)).tasks d), tid < allocated)
        ∧ (∀ tid ∈ ids (copySelectedTasks
            (selectTask initialState task1 false)).selectedTasks, tid < allocated)
        ∧ (∀ tid ∈ ids (copySelectedTasks
            (selectTask initialState task1 false)).clipboard, tid < allocated) :=
  c4_amended_id_monotonic
    (Relation.ReflTransGen.tail
      (Relation.ReflTransGen.tail Relation.ReflTransGen.refl
        (Step.select initialState task1 false ⟨Day.lundi, by decide⟩))
      (Step.copy _))
    (by decide) (by decide) Day.samedi

/-- Counterexample to claim C5 as stated: `lostTaskState` is reachable
(select task 8, cut it, select task 7, copy).  Task 8 was cut and never
pasted, and was never removed from a folder — yet its id is absent from
every bucket, absent from the clipboard (the copy overwrote the snapshot),
and absent from the (empty) folder: the task is permanently destroyed
without a paste ever returning it to a bucket. -/
theorem c5_lost_task_counterexample :
    Reachable lostTaskState
    ∧ (∀ d : Day, 8 ∉ ids (lostTaskState.tasks d))
    ∧ 8 ∉ ids lostTaskState.clipboard
    ∧ 8 ∉ ids lostTaskState.folder
    ∧ lostTaskState.clipboardMode = ClipboardMode.copy := by
  refine ⟨?_, by decide, by decide, by decide, by decide⟩
  exact Relation.ReflTransGen.tail
    (Relation.ReflTransGen.tail
      (Relation.ReflTransGen.tail
        (Relation.ReflTransGen.tail Relation.ReflTransGen.refl
          (Step.select initialState task8 false ⟨Day.vendredi, by decide⟩))
        (Step.cut _))
      (Step.select _ task7 false ⟨Day.jeudi, by decide⟩))
    (Step.copy _)

/-- Claim C5 (amended): along any single operation from an invariant-holding
state, a task id present in some bucket either remains in some bucket or
(only in the case of a cut of that task) moves to the clipboard in cut mode
while leaving all buckets; it is not destroyed by the operation itself.
However a cut task only survives in the clipboard until the next copy/cut
overwrites it (see the counterexample), so "present in the clipboard until
a paste returns it" does not hold across operation sequences.
`removeFromFolder` touches neither buckets nor clipboard. -/
theorem c5_amended_no_silent_destruction {s s2 : PlannerState} (hstep : Step s s2)
    (hInv : Inv s) :
    (∀ tid, InBuckets s.tasks tid →
      InBuckets s2.tasks tid
      ∨ (tid ∈ ids s2.clipboard ∧ ¬ InBuckets s2.tasks tid
          ∧ s2.clipboardMode = ClipboardMode.cut))
    ∧ ∀ tid, (removeFromFolder s tid).tasks = s.tasks
        ∧ (removeFromFolder s tid).clipboard = s.clipboard := by
  obtain ⟨hdisj, hnd, hfnd, hsnd, hsin, hcnd, hccopy, hccut, hdnd⟩ := hInv
  refine ⟨?_, fun tid => ⟨rfl, rfl⟩⟩
  intro tid hin
  cases hstep with
  | select t ctrl h =>
      rw [(selectTask_only_selection s t ctrl).1]
      exact Or.inl hin
  | copy =>
      rw [copySelectedTasks_tasks s]
      exact Or.inl hin
  | cut =>
      by_cases hc : s.selectedTasks.length > 0
      · simp only [cutSelectedTasks, if_pos hc]
        by_cases hmem : tid ∈ ids s.selectedTasks
        · obtain ⟨t0, ht0, rfl⟩ := mem_ids_iff.mp hmem
          refine Or.inr ⟨?_, ?_, by trivial⟩
          · show t0.id ∈ ids s.selectedTasks
            exact mem_ids_iff.mpr ⟨t0, ht0, rfl⟩
          · rintro ⟨d, hd⟩
            exact cutFold_gone hdisj ht0 d hd
        · obtain ⟨d, hd⟩ := hin
          exact Or.inl ⟨d, (cutFold_mem_of_notin hmem d).mpr hd⟩
      · simp only [cutSelectedTasks, if_neg hc]
        exact Or.inl hin
  | paste d => exact Or.inl (paste_inBuckets_mono d hin)
  | addToFolder =>
      rw [addSelectedTasksToFolder_tasks s]
      exact Or.inl hin
  | removeFolder tid2 => exact Or.inl hin
  | dragStart t h =>
      rw [handleDragStart_tasks s t]
      exact Or.inl hin
  | dayDrop d =>
      cases hdrag : s.draggedTask with
      | none =>
          simp only [handleDayDrop, hdrag]
          exact Or.inl hin
      | some p =>
          simp only [handleDayDrop, hdrag]
          exact Or.inl ((dropFold_inBuckets_iff d _ s.tasks tid).mpr hin)
  | folderDrop =>
      rw [handleFolderDrop_tasks s]
      exact Or.inl hin
  | openEdit t h => exact Or.inl hin
  | closeEdit => exact Or.inl hin
  | formChange fd => exact Or.inl hin
  | save =>
      cases hcur : s.currentTask with
      | none =>
          simp only [saveChanges, hcur]
          exact Or.inl hin
      | some ct =>
          obtain ⟨d, hd⟩ := hin
          exact Or.inl ⟨d, (saveChanges_tasks_ids hcur d).symm ▸ hd⟩

/-- Witness for the amended C5: one select step from the initial state,
with the bucket id 1. -/
theorem c5_amended_no_silent_destruction_witness :
    (∀ tid, InBuckets initialState.tasks tid →
      InBuckets (selectTask initialState task1 false).tasks tid
      ∨ (tid ∈ ids (selectTask initialState task1 false).clipboard
          ∧ ¬ InBuckets (selectTask initialState task1 false).tasks tid
          ∧ (selectTask initialState task1 false).clipboardMode = ClipboardMode.cut))
    ∧ ∀ tid, (removeFromFolder initialState tid).tasks = initialState.tasks
        ∧ (removeFromFolder initialState tid).clipboard = initialState.clipboard :=
  c5_amended_no_silent_destruction
    (Step.select initialState task1 false ⟨Day.lundi, by decide⟩)
    inv_initialState

/-- Claim C6: with a pending drag payload `p` and buckets whose ids are
not duplicated across buckets (as on every reachable state), `dropOnBucket B`
clears the pending payload unconditionally; the target bucket becomes its
old sequence (order untouched) plus some appended payload values, each of
which was not previously present in the target by id (the duplicate-id
guard); every payload task id is afterwards absent from every bucket other
than the target (removed from its source when it had one); and if the
target already owns every payload task, no bucket changes at all. -/
theorem c6_dayDrop_spec (s : PlannerState) (B : Day) (p : DraggedTask)
    (hp : s.draggedTask = some p) (hdisj : BucketsDisjoint s.tasks) :
    (handleDayDrop s B).draggedTask = none
    ∧ (∃ extra, (handleDayDrop s B).tasks B = s.tasks B ++ extra
        ∧ ∀ t ∈ extra, t ∈ payloadTasks p ∧ t.id ∉ ids (s.tasks B))
    ∧ (∀ t ∈ payloadTasks p, ∀ d, d ≠ B → t.id ∉ ids ((handleDayDrop s B).tasks d))
    ∧ ((∀ t ∈ payloadTasks p, t.id ∈ ids (s.tasks B))
        → (handleDayDrop s B).tasks = s.tasks) := by
  have he : handleDayDrop s B = { s with
      tasks := (payloadTasks p).foldl (dayDropStep B) s.tasks
      draggedTask := none } := by
    simp only [handleDayDrop, hp]
  refine ⟨by rw [he], ?_, ?_, ?_⟩
  · rw [he]
    exact dropFold_target B (payloadTasks p) s.tasks
  · intro t ht d hd
    rw [he]
    exact dropFold_gone hdisj ht hd
  · intro hall
    rw [he]
    show (payloadTasks p).foldl (dayDropStep B) s.tasks = s.tasks
    exact dropFold_self_noop hdisj hall

/-- Witness for C6: the initial state with seed task 1 pending as a single
drag payload, dropped on Tuesday. -/
theorem c6_dayDrop_spec_witness :
    (handleDayDrop { initialState with
        draggedTask := some (DraggedTask.singleTask task1) } Day.mardi).draggedTask = none
    ∧ (∃ extra, (handleDayDrop { initialState with
          draggedTask := some (DraggedTask.singleTask task1) } Day.mardi).tasks Day.mardi
        = ({ initialState with draggedTask := some (DraggedTask.singleTask task1) } :
            PlannerState).tasks Day.mardi ++ extra
        ∧ ∀ t ∈ extra, t ∈ payloadTasks (DraggedTask.singleTask task1)
          ∧ t.id ∉ ids (({ initialState with
              draggedTask := some (DraggedTask.singleTask task1) } :
              PlannerState).tasks Day.mardi))
    ∧ (∀ t ∈ payloadTasks (DraggedTask.singleTask task1), ∀ d, d ≠ Day.mardi →
        t.id ∉ ids ((handleDayDrop { initialState with
          draggedTask := some (DraggedTask.singleTask task1) } Day.mardi).tasks d))
    ∧ ((∀ t ∈ payloadTasks (DraggedTask.singleTask task1),
        t.id ∈ ids (({ initialState with
          draggedTask := some (DraggedTask.singleTask task1) } :
          PlannerState).tasks Day.mardi))
        → (handleDayDrop { initialState with
            draggedTask := some (DraggedTask.singleTask task1) } Day.mardi).tasks
          = ({ initialState with
              draggedTask := some (DraggedTask.singleTask task1) } :
              PlannerState).tasks) :=
  c6_dayDrop_spec { initialState with draggedTask := some (DraggedTask.singleTask task1) }
    Day.mardi (DraggedTask.singleTask task1) rfl (by unfold BucketsDisjoint; decide)

/-- Claim C7: with an edit in progress on task `ct` that is both selected
and present in the folder (and buckets satisfying the reachable-state
uniqueness), `commitEdit` applies one and the same content substitution —
replace title/description/points by the form buffer on every entry whose id
is `ct.id`, preserving ids and positions — to every bucket, to the
selection and to the folder, and leaves the clipboard untouched. -/
theorem c7_commitEdit_propagates (s : PlannerState) (ct : Task)
    (hcur : s.currentTask = some ct)
    (hdisj : BucketsDisjoint s.tasks) (hnd : BucketsNodup s.tasks)
    (hsel : ct.id ∈ ids s.selectedTasks) (hfol : ct.id ∈ ids s.folder) :
    (∀ d, (saveChanges s).tasks d
        = (s.tasks d).map (fun t => if t.id == ct.id then applyForm s.formData t else t))
    ∧ (saveChanges s).selectedTasks
        = s.selectedTasks.map (fun t => if t.id == ct.id then applyForm s.formData t else t)
    ∧ (saveChanges s).folder
        = s.folder.map (fun t => if t.id == ct.id then applyForm s.formData t else t)
    ∧ (∀ d, ids ((saveChanges s).tasks d) = ids (s.tasks d))
    ∧ (saveChanges s).clipboard = s.clipboard := by
  refine ⟨?_, by simp only [saveChanges, hcur], by simp only [saveChanges, hcur],
    saveChanges_tasks_ids hcur, by simp only [saveChanges, hcur]⟩
  intro d
  simp only [saveChanges, hcur]
  cases hfind : findSourceDay s.tasks ct.id with
  | none =>
      dsimp only
      rw [map_update_noop (findSourceDay_none hfind d)]
  | some d0 =>
      by_cases he : d = d0
      · subst he
        dsimp only
        rw [setDay_same]
        exact replaceFirst_eq_map (hnd d)
      · dsimp only
        rw [setDay_other he,
          map_update_noop (hdisj d0 d (fun h2 => he h2.symm) ct.id (findSourceDay_mem hfind))]

/-- Witness for C7, instantiated at `editWitnessState` (seed task 1
selected, in the folder, and open in the edit modal). -/
theorem c7_commitEdit_propagates_witness :
    (∀ d, (saveChanges editWitnessState).tasks d
        = (editWitnessState.tasks d).map
          (fun t => if t.id == task1.id
            then applyForm editWitnessState.formData t else t))
    ∧ (saveChanges editWitnessState).selectedTasks
        = editWitnessState.selectedTasks.map
          (fun t => if t.id == task1.id
            then applyForm editWitnessState.formData t else t)
    ∧ (saveChanges editWitnessState).folder
        = editWitnessState.folder.map
          (fun t => if t.id == task1.id
            then applyForm editWitnessState.formData t else t)
    ∧ (∀ d, ids ((saveChanges editWitnessState).tasks d)
        = ids (editWitnessState.tasks d))
    ∧ (saveChanges editWitnessState).clipboard = editWitnessState.clipboard :=
  c7_commitEdit_propagates editWitnessState task1 rfl
    (by unfold BucketsDisjoint editWitnessState; decide)
    (by unfold BucketsNodup editWitnessState; decide)
    (by decide) (by decide)

/-- Claim C8: with a non-empty selection (whose ids carry no duplicates,
and a duplicate-free folder, as on every reachable state),
`addSelectionToFolder` appends to the folder exactly those selected tasks
whose id is not already present in the folder, clears the selection
unconditionally, keeps the folder duplicate-free, ends with every selected
id present in the folder — so re-selecting the same tasks and calling it
again leaves the folder unchanged (a no-op for already-present ids); and
`dropOnFolder` applies the identical de-duplication rule to the drag
payload, touching neither buckets nor anything but the folder and the
cleared payload. -/
theorem c8_folder_dedup (s : PlannerState)
    (hsel : s.selectedTasks ≠ [])
    (hselnd : (ids s.selectedTasks).Nodup)
    (hfnd : (ids s.folder).Nodup) :
    (addSelectedTasksToFolder s).selectedTasks = []
    ∧ (addSelectedTasksToFolder s).folder
        = s.folder ++ s.selectedTasks.filter (fun t => ! hasId s.folder t.id)
    ∧ (ids (addSelectedTasksToFolder s).folder).Nodup
    ∧ (∀ t ∈ s.selectedTasks, t.id ∈ ids (addSelectedTasksToFolder s).folder)
    ∧ (addSelectedTasksToFolder { addSelectedTasksToFolder s with
        selectedTasks := s.selectedTasks }).folder = (addSelectedTasksToFolder s).folder
    ∧ (∀ p, s.draggedTask = some p →
        (handleFolderDrop s).folder
          = s.folder ++ (payloadTasks p).filter (fun t => ! hasId s.folder t.id)
        ∧ (handleFolderDrop s).tasks = s.tasks
        ∧ (handleFolderDrop s).draggedTask = none) := by
  have hlen : s.selectedTasks.length > 0 := List.length_pos.mpr hsel
  have happ : ∀ (F X : List Task),
      (if (X.filter (fun t => ! hasId F t.id)).length > 0
        then F ++ X.filter (fun t => ! hasId F t.id) else F)
      = F ++ X.filter (fun t => ! hasId F t.id) := by
    intro F X
    split
    · rfl
    · rename_i hX
      have hnil : X.filter (fun t => ! hasId F t.id) = [] :=
        List.length_eq_zero.mp (by omega)
      rw [hnil, List.append_nil]
  have e1 : addSelectedTasksToFolder s = { s with
      folder := s.folder ++ s.selectedTasks.filter (fun t => ! hasId s.folder t.id)
      selectedTasks := [] } := by
    simp only [addSelectedTasksToFolder, if_pos hlen]
    rw [happ s.folder s.selectedTasks]
  have hmem : ∀ t ∈ s.selectedTasks,
      t.id ∈ ids (s.folder ++ s.selectedTasks.filter (fun t => ! hasId s.folder t.id)) := by
    intro t ht
    rw [ids_append]
    by_cases hf : t.id ∈ ids s.folder
    · exact List.mem_append.mpr (Or.inl hf)
    · refine List.mem_append.mpr (Or.inr (mem_ids_iff.mpr ⟨t, ?_, rfl⟩))
      exact List.mem_filter.mpr ⟨ht, by
        rw [Bool.not_eq_true']
        exact hasId_eq_false_iff.mpr hf⟩
  refine ⟨by rw [e1], by rw [e1], ?_, ?_, ?_, ?_⟩
  · rw [e1]
    exact nodup_folder_append hfnd hselnd
  · intro t ht
    rw [e1]
    exact hmem t ht
  · rw [e1]
    have hall : s.selectedTasks.filter (fun t => ! hasId
        (s.folder ++ s.selectedTasks.filter (fun t2 => ! hasId s.folder t2.id)) t.id)
        = [] := by
      refine List.filter_eq_nil_iff.mpr (fun t ht => ?_)
      simp [hasId_iff.mpr (hmem t ht)]
    simp only [addSelectedTasksToFolder, if_pos hlen, hall]
    simp
  · intro p hp
    have e2 : handleFolderDrop s = { s with
        folder := s.folder ++ (payloadTasks p).filter (fun t => ! hasId s.folder t.id)
        draggedTask := none } := by
      simp only [handleFolderDrop, hp]
      rw [happ s.folder (payloadTasks p)]
    exact ⟨by rw [e2], by rw [e2], by rw [e2]⟩

/-- Witness for C8: the initial state with seed task 1 selected and pending
as a drag payload. -/
theorem c8_folder_dedup_witness :
    (addSelectedTasksToFolder { selWitnessState with
        draggedTask := some (DraggedTask.singleTask task1) }).selectedTasks = []
    ∧ (addSelectedTasksToFolder { selWitnessState with
        draggedTask := some (DraggedTask.singleTask task1) }).folder
        = ({ selWitnessState with
            draggedTask := some (DraggedTask.singleTask task1) } : PlannerState).folder
          ++ ({ selWitnessState with
            draggedTask := some (DraggedTask.singleTask task1) } :
              PlannerState).selectedTasks.filter
            (fun t => ! hasId ({ selWitnessState with
              draggedTask := some (DraggedTask.singleTask task1) } :
                PlannerState).folder t.id)
    ∧ (ids (addSelectedTasksToFolder { selWitnessState with
        draggedTask := some (DraggedTask.singleTask task1) }).folder).Nodup
    ∧ (∀ t ∈ ({ selWitnessState with
        draggedTask := some (DraggedTask.singleTask task1) } :
          PlannerState).selectedTasks,
        t.id ∈ ids (addSelectedTasksToFolder { selWitnessState with
          draggedTask := some (DraggedTask.singleTask task1) }).folder)
    ∧ (addSelectedTasksToFolder { addSelectedTasksToFolder { selWitnessState with
        draggedTask := some (DraggedTask.singleTask task1) } with
        selectedTasks := ({ selWitnessState with
          draggedTask := some (DraggedTask.singleTask task1) } :
            PlannerState).selectedTasks }).folder
      = (addSelectedTasksToFolder { selWitnessState with
          draggedTask := some (DraggedTask.singleTask task1) }).folder
    ∧ (∀ p, ({ selWitnessState with
        draggedTask := some (DraggedTask.singleTask task1) } :
          PlannerState).draggedTask = some p →
        (handleFolderDrop { selWitnessState with
          draggedTask := some (DraggedTask.singleTask task1) }).folder
          = ({ selWitnessState with
              draggedTask := some (DraggedTask.singleTask task1) } :
                PlannerState).folder
            ++ (payloadTasks p).filter (fun t => ! hasId ({ selWitnessState with
                draggedTask := some (DraggedTask.singleTask task1) } :
                  PlannerState).folder t.id)
        ∧ (handleFolderDrop { selWitnessState with
            draggedTask := some (DraggedTask.singleTask task1) }).tasks
          = ({ selWitnessState with
              draggedTask := some (DraggedTask.singleTask task1) } :
                PlannerState).tasks
        ∧ (handleFolderDrop { selWitnessState with
            draggedTask := some (DraggedTask.singleTask task1) }).draggedTask = none) :=
  c8_folder_dedup { selWitnessState with
      draggedTask := some (DraggedTask.singleTask task1) }
    (by simp [selWitnessState]) (by decide) (by decide)

/-- Claim C9: `select(t, true)` toggles membership of `t.id` in the
selection — removing every entry with that id if present (so the id is gone
afterwards), appending the task if absent — while every other selected id
keeps its membership; `select(t, false)` clears the selection exactly when
the selection ids are `[t.id]` and otherwise replaces the selection with
`[t]`; and no other state field is modified by `select` in either mode. -/
theorem c9_selectTask_spec (s : PlannerState) (task : Task) :
    (task.id ∈ ids s.selectedTasks →
      (selectTask s task true).selectedTasks = eraseId s.selectedTasks task.id
      ∧ task.id ∉ ids (selectTask s task true).selectedTasks)
    ∧ (task.id ∉ ids s.selectedTasks →
      (selectTask s task true).selectedTasks = s.selectedTasks ++ [task]
      ∧ task.id ∈ ids (selectTask s task true).selectedTasks)
    ∧ (∀ tid, tid ≠ task.id →
        (tid ∈ ids (selectTask s task true).selectedTasks ↔ tid ∈ ids s.selectedTasks))
    ∧ (ids s.selectedTasks = [task.id] → (selectTask s task false).selectedTasks = [])
    ∧ (ids s.selectedTasks ≠ [task.id] → (selectTask s task false).selectedTasks = [task])
    ∧ (∀ b, (selectTask s task b).tasks = s.tasks
        ∧ (selectTask s task b).folder = s.folder
        ∧ (selectTask s task b).clipboard = s.clipboard
        ∧ (selectTask s task b).clipboardMode = s.clipboardMode
        ∧ (selectTask s task b).draggedTask = s.draggedTask
        ∧ (selectTask s task b).currentTask = s.currentTask
        ∧ (selectTask s task b).formData = s.formData
        ∧ (selectTask s task b).isModalOpen = s.isModalOpen) := by
  have htrue : ∀ h : task.id ∈ ids s.selectedTasks,
      (selectTask s task true).selectedTasks = eraseId s.selectedTasks task.id := by
    intro h
    simp only [selectTask, if_pos rfl, hasId_iff.mpr h, if_true]
  have hfalse : ∀ h : task.id ∉ ids s.selectedTasks,
      (selectTask s task true).selectedTasks = s.selectedTasks ++ [task] := by
    intro h
    simp only [selectTask, if_pos rfl, hasId_eq_false_iff.mpr h, Bool.false_eq_true,
      if_false, if_true]
  refine ⟨fun h => ⟨htrue h, ?_⟩, fun h => ⟨hfalse h, ?_⟩, fun tid hne => ?_, ?_, ?_,
    selectTask_only_selection s task⟩
  · rw [htrue h]
    intro hc
    exact (mem_ids_eraseId.mp hc).2 rfl
  · rw [hfalse h, ids_append]
    refine List.mem_append.mpr (Or.inr ?_)
    simp [ids]
  · by_cases h : task.id ∈ ids s.selectedTasks
    · rw [htrue h]
      rw [mem_ids_eraseId]
      exact ⟨fun hc => hc.1, fun hc => ⟨hc, hne⟩⟩
    · rw [hfalse h, ids_append]
      constructor
      · intro hc
        rcases List.mem_append.mp hc with hm | hm
        · exact hm
        · exact absurd (by simpa [ids] using hm) hne
      · exact fun hc => List.mem_append.mpr (Or.inl hc)
  · intro h
    rcases hsel2 : s.selectedTasks with _ | ⟨a, tail⟩
    · rw [hsel2] at h
      exact absurd h (by simp [ids])
    · rcases tail with _ | ⟨b2, tail2⟩
      · rw [hsel2] at h
        simp only [ids, List.map_cons, List.map_nil, List.cons.injEq, and_true] at h
        simp [selectTask, hsel2, h]
      · rw [hsel2] at h
        exact absurd h (by simp [ids])
  · intro h
    rcases hsel2 : s.selectedTasks with _ | ⟨a, tail⟩
    · simp [selectTask, hsel2]
    · rcases tail with _ | ⟨b2, tail2⟩
      · rw [hsel2] at h
        have hne : ¬ a.id = task.id := by
          intro hc
          exact h (by simp [ids, hc])
        simp [selectTask, hsel2, hne]
      · simp [selectTask, hsel2]

/-- Witness for C9 at the initial state (empty selection) and seed
task 1. -/
theorem c9_selectTask_spec_witness :
    (task1.id ∈ ids initialState.selectedTasks →
      (selectTask initialState task1 true).selectedTasks
        = eraseId initialState.selectedTasks task1.id
      ∧ task1.id ∉ ids (selectTask initialState task1 true).selectedTasks)
    ∧ (task1.id ∉ ids initialState.selectedTasks →
      (selectTask initialState task1 true).selectedTasks
        = initialState.selectedTasks ++ [task1]
      ∧ task1.id ∈ ids (selectTask initialState task1 true).selectedTasks)
    ∧ (∀ tid, tid ≠ task1.id →
        (tid ∈ ids (selectTask initialState task1 true).selectedTasks
          ↔ tid ∈ ids initialState.selectedTasks))
    ∧ (ids initialState.selectedTasks = [task1.id]
        → (selectTask initialState task1 false).selectedTasks = [])
    ∧ (ids initialState.selectedTasks ≠ [task1.id]
        → (selectTask initialState task1 false).selectedTasks = [task1])
    ∧ (∀ b, (selectTask initialState task1 b).tasks = initialState.tasks
        ∧ (selectTask initialState task1 b).folder = initialState.folder
        ∧ (selectTask initialState task1 b).clipboard = initialState.clipboard
        ∧ (selectTask initialState task1 b).clipboardMode = initialState.clipboardMode
        ∧ (selectTask initialState task1 b).draggedTask = initialState.draggedTask
        ∧ (selectTask initialState task1 b).currentTask = initialState.currentTask
        ∧ (selectTask initialState task1 b).formData = initialState.formData
        ∧ (selectTask initialState task1 b).isModalOpen = initialState.isModalOpen) :=
  c9_selectTask_spec initialState task1

/-- Claim C10: `dropOnBucket` inserts the task value captured in the drag
payload at `beginDrag` time, not the current bucket entry.  Starting from a
state with an empty selection and `t` owned by bucket `d0 ≠ B` (buckets
id-disjoint): after `beginDrag(t)`, `beginEdit(t)`, a form change to `fd`
and `commitEdit`, a `dropOnBucket B` appends to `B` the pre-edit value `t`
— the only entry of `B` with that id — while `t.id` vanishes from every
other bucket (the edited bucket copy is dropped with the source bucket),
and the selection and folder entries keep the edited content: the edit is
silently lost from the bucket copy. -/
theorem c10_drag_payload_stale (s : PlannerState) (t : Task) (fd : TaskFormData)
    (d0 B : Day) (hsel0 : s.selectedTasks = [])
    (hown : t.id ∈ ids (s.tasks d0)) (hne : d0 ≠ B)
    (hdisj : BucketsDisjoint s.tasks) :
    (handleDayDrop (saveChanges (setFormData (openEditModal (handleDragStart s t) t) fd))
        B).tasks B
      = (saveChanges (setFormData (openEditModal (handleDragStart s t) t) fd)).tasks B
        ++ [t]
    ∧ (∀ x ∈ (handleDayDrop (saveChanges (setFormData (openEditModal
          (handleDragStart s t) t) fd)) B).tasks B, x.id = t.id → x = t)
    ∧ (∀ d, d ≠ B → t.id ∉ ids ((handleDayDrop (saveChanges (setFormData (openEditModal
          (handleDragStart s t) t) fd)) B).tasks d))
    ∧ (handleDayDrop (saveChanges (setFormData (openEditModal
        (handleDragStart s t) t) fd)) B).selectedTasks = [applyForm fd t]
    ∧ (handleDayDrop (saveChanges (setFormData (openEditModal
        (handleDragStart s t) t) fd)) B).folder
      = s.folder.map (fun x => if x.id == t.id then applyForm fd x else x) := by
  have e1 : handleDragStart s t = { s with
      selectedTasks := [t]
      draggedTask := some (DraggedTask.singleTask t) } := by
    simp [handleDragStart, hsel0, hasId]
  have hfind : findSourceDay s.tasks t.id = some d0 := findSourceDay_eq_some hdisj hown
  have e3 : saveChanges (setFormData (openEditModal (handleDragStart s t) t) fd)
      = { s with
          tasks := setDay s.tasks d0 (replaceFirst (s.tasks d0) t.id (applyForm fd))
          selectedTasks := [applyForm fd t]
          folder := s.folder.map (fun x => if x.id == t.id then applyForm fd x else x)
          draggedTask := some (DraggedTask.singleTask t)
          isModalOpen := false
          currentTask := none
          formData := fd } := by
    rw [e1]
    simp only [saveChanges, setFormData, openEditModal]
    rw [hfind]
    simp
  have hids4 : ∀ d,
      ids (setDay s.tasks d0 (replaceFirst (s.tasks d0) t.id (applyForm fd)) d)
        = ids (s.tasks d) := by
    intro d
    by_cases he : d = d0
    · subst he
      rw [setDay_same]
      exact @ids_replaceFirst (applyForm fd) (fun t2 => rfl) (s.tasks d) t.id
    · rw [setDay_other he]
  have hdisj4 : BucketsDisjoint
      (setDay s.tasks d0 (replaceFirst (s.tasks d0) t.id (applyForm fd))) :=
    fun d1 d2 hne12 tid h1 h2 =>
      hdisj d1 d2 hne12 tid ((hids4 d1) ▸ h1) ((hids4 d2) ▸ h2)
  have hmem4 : t.id ∈ ids
      (setDay s.tasks d0 (replaceFirst (s.tasks d0) t.id (applyForm fd)) d0) :=
    (hids4 d0).symm ▸ hown
  have hfind4 := findSourceDay_eq_some hdisj4 hmem4
  have habs : hasId
      (setDay s.tasks d0 (replaceFirst (s.tasks d0) t.id (applyForm fd)) B) t.id
      = false :=
    hasId_eq_false_iff.mpr (fun hc => hdisj d0 B hne t.id hown ((hids4 B) ▸ hc))
  have e6 := dds_eq_of_move hfind4 hne habs
  rw [e3]
  have e5 : handleDayDrop ({ s with
      tasks := setDay s.tasks d0 (replaceFirst (s.tasks d0) t.id (applyForm fd))
      selectedTasks := [applyForm fd t]
      folder := s.folder.map (fun x => if x.id == t.id then applyForm fd x else x)
      draggedTask := some (DraggedTask.singleTask t)
      isModalOpen := false
      currentTask := none
      formData := fd } : PlannerState) B
      = { s with
          tasks := dayDropStep B
            (setDay s.tasks d0 (replaceFirst (s.tasks d0) t.id (applyForm fd))) t
          selectedTasks := [applyForm fd t]
          folder := s.folder.map (fun x => if x.id == t.id then applyForm fd x else x)
          draggedTask := none
          isModalOpen := false
          currentTask := none
          formData := fd } := by
    simp only [handleDayDrop, payloadTasks, List.foldl_cons, List.foldl_nil]
  rw [e5]
  refine ⟨?_, ?_, ?_, rfl, rfl⟩
  · show dayDropStep B _ t B = _
    rw [e6, setDay_same]
  · intro x hx hxid
    have hx2 : x ∈ setDay s.tasks d0 (replaceFirst (s.tasks d0) t.id (applyForm fd)) B
        ++ [t] := by
      have hy : dayDropStep B
          (setDay s.tasks d0 (replaceFirst (s.tasks d0) t.id (applyForm fd))) t B
          = setDay s.tasks d0 (replaceFirst (s.tasks d0) t.id (applyForm fd)) B
            ++ [t] := by
        rw [e6, setDay_same]
      exact hy ▸ hx
    rcases List.mem_append.mp hx2 with hm | hm
    · exfalso
      have hxid2 : x.id ∈ ids
          (setDay s.tasks d0 (replaceFirst (s.tasks d0) t.id (applyForm fd)) B) :=
        mem_ids_iff.mpr ⟨x, hm, rfl⟩
      rw [hids4 B, hxid] at hxid2
      exact hdisj d0 B hne t.id hown hxid2
    · simpa using hm
  · intro d hd
    show t.id ∉ ids (dayDropStep B _ t d)
    rw [e6, setDay_other hd]
    by_cases he : d = d0
    · subst he
      rw [setDay_same]
      intro hc
      exact (mem_ids_eraseId.mp hc).2 rfl
    · rw [setDay_other he]
      intro hc
      exact hdisj d0 d (fun h2 => he h2.symm) t.id hown ((hids4 d) ▸ hc)

/-- Witness for C10: the initial state, dragging seed task 1 (owned by
Monday), editing it to new content, and dropping it on Tuesday. -/
theorem c10_drag_payload_stale_witness :
    (handleDayDrop (saveChanges (setFormData (openEditModal
        (handleDragStart initialState task1) task1) ⟨"X", "Y", 9⟩)) Day.mardi).tasks
        Day.mardi
      = (saveChanges (setFormData (openEditModal (handleDragStart initialState task1)
          task1) ⟨"X", "Y", 9⟩)).tasks Day.mardi ++ [task1]
    ∧ (∀ x ∈ (handleDayDrop (saveChanges (setFormData (openEditModal
          (handleDragStart initialState task1) task1) ⟨"X", "Y", 9⟩))
          Day.mardi).tasks Day.mardi, x.id = task1.id → x = task1)
    ∧ (∀ d, d ≠ Day.mardi → task1.id ∉ ids ((handleDayDrop (saveChanges (setFormData
          (openEditModal (handleDragStart initialState task1) task1) ⟨"X", "Y", 9⟩))
          Day.mardi).tasks d))
    ∧ (handleDayDrop (saveChanges (setFormData (openEditModal
        (handleDragStart initialState task1) task1) ⟨"X", "Y", 9⟩))
        Day.mardi).selectedTasks = [applyForm ⟨"X", "Y", 9⟩ task1]
    ∧ (handleDayDrop (saveChanges (setFormData (openEditModal
        (handleDragStart initialState task1) task1) ⟨"X", "Y", 9⟩))
        Day.mardi).folder
      = initialState.folder.map
          (fun x => if x.id == task1.id then applyForm ⟨"X", "Y", 9⟩ x else x) :=
  c10_drag_payload_stale initialState task1 ⟨"X", "Y", 9⟩ Day.lundi Day.mardi
    rfl (by decide) (by decide) (by unfold BucketsDisjoint; decide)

end Kanban
